import Mathlib

/-!
Verification development for the FieldConditions simulation engine
(`src/lib/SimulationEngine.ts`).  The engine is embedded shallowly:

* plane coordinates, field values and parameters are rationals (exact
  arithmetic; we do not model Float32 rounding);
* JavaScript `%` (sign-preserving, truncating remainder) is embedded as
  `jsModQ` / `jsModZ`;
* `Math.random()` is an explicit stream of rationals consumed in order
  (`RNG`), so theorems can count how many draws an operation makes;
* the transcendental functions `Math.cos/sin/atan2/sqrt/exp` and `Math.PI`
  are a parameter (`MathFns`): every theorem holds for an arbitrary
  interpretation, and concrete counterexamples instantiate them with
  functions that are exact at the values actually reached.

Definitions mirror the TypeScript source statement by statement; loop nests
become `List.foldl` over explicit integer ranges, in the same iteration
order, with the same bounds checks.
-/

namespace FieldConditions

/-- Truncation of a rational toward zero, as JavaScript division-based
remainder uses (`Math.trunc` semantics). -/
def ratTrunc (q : ℚ) : ℤ :=
  if 0 ≤ q then Rat.floor q else -Rat.floor (-q)

/-- JavaScript `%` on numbers: `a % b = a - b * trunc (a / b)`; the result
has the sign of the dividend. -/
def jsModQ (a b : ℚ) : ℚ :=
  a - b * (ratTrunc (a / b) : ℚ)

/-- JavaScript `%` restricted to integer-valued operands (grid indices). -/
def jsModZ (a b : ℤ) : ℤ :=
  if 0 ≤ a then a % b else -((-a) % b)

/-- The inclusive integer range `[a, b]`, empty when `b < a`; the
iteration space of a `for (let i = a; i <= b; i++)` loop. -/
def intRange (a b : ℤ) : List ℤ :=
  (List.range (b + 1 - a).toNat).map (fun (k : ℕ) => a + (k : ℤ))

/-- One simulated agent (`Particle` in `types.ts`). -/
structure Particle where
  x : ℚ
  y : ℚ
  angle : ℚ
  speed : ℚ
  vx : ℚ
  vy : ℚ
  isStuck : Bool
deriving Repr, DecidableEq

instance : Inhabited Particle :=
  ⟨⟨0, 0, 0, 0, 0, 0, false⟩⟩

/-- The engine-relevant fields of `SimulationParams` (the cosmetic color
strings never touch engine state and are omitted). -/
structure Params where
  particleCount : ℕ
  moveSpeed : ℚ
  turnSpeed : ℚ
  sensorAngle : ℚ
  sensorDistance : ℚ
  diffusionRate : ℚ
  decayRate : ℚ
  chemicalDepositRate : ℚ
  alignmentForce : ℚ
  cohesionForce : ℚ
  separationForce : ℚ
  perceptionRadius : ℚ
  particleSize : ℚ
  stickingProbability : ℚ
  releaseProbability : ℚ
  isPaused : Bool
deriving Repr, DecidableEq

/-- A food source entry. -/
structure Food where
  x : ℚ
  y : ℚ
  radius : ℚ
  strength : ℚ
deriving Repr, DecidableEq

/-- Interpretation of the transcendental math functions used by the
engine.  Theorems are proved for every interpretation. -/
structure MathFns where
  cos : ℚ → ℚ
  sin : ℚ → ℚ
  atan2 : ℚ → ℚ → ℚ
  sqrt : ℚ → ℚ
  exp : ℚ → ℚ
  pi : ℚ

/-- The `Math.random()` stream: an infinite sequence of rationals and a
cursor; each draw consumes one value. -/
structure RNG where
  stream : ℕ → ℚ
  idx : ℕ

/-- Draw one uniform value. -/
def RNG.next (r : RNG) : ℚ × RNG :=
  (r.stream r.idx, ⟨r.stream, r.idx + 1⟩)

/-- The state owned by `SimulationEngine`: dimensions, current parameter
record, particle list, chemical field (row-major, length `width*height`)
and food-source list. -/
structure Engine where
  width : ℕ
  height : ℕ
  params : Params
  particles : List Particle
  chemicalField : List ℚ
  foodSources : List Food

/-- The spatial-hash cell size (`gridSize = 10`). -/
def gridSize : ℚ := 10

/-- Chemical deposit of one particle (`updateParticle`, deposit loop):
spread `chemicalDepositRate / radius²` over the disk of cells
`dx² + dy² ≤ radius²` around the particle's cell, each write clamped to
`1.0`, skipping out-of-bounds cells. -/
def depositDisk (w h : ℕ) (pSize rate : ℚ) (x y : ℚ) (field : List ℚ) : List ℚ :=
  let radius : ℤ := max 1 (Rat.floor pSize)
  let depositValue : ℚ := rate / ((radius : ℚ) * (radius : ℚ))
  (intRange (-radius) radius).foldl (fun f dy =>
    (intRange (-radius) radius).foldl (fun f dx =>
      if dx * dx + dy * dy ≤ radius * radius then
        let px := Rat.floor (x + (dx : ℚ))
        let py := Rat.floor (y + (dy : ℚ))
        if 0 ≤ px ∧ px < (w : ℤ) ∧ 0 ≤ py ∧ py < (h : ℤ) then
          let idx := py * (w : ℤ) + px
          if 0 ≤ idx ∧ idx < (f.length : ℤ) then
            f.set idx.toNat (min 1 (f.getD idx.toNat 0 + depositValue))
          else f
        else f
      else f) f) field

/-- Food-source stamping (`diffuseChemicals`, first loop): every covered
in-bounds cell is set (not added) to the source's strength, sources in
insertion order. -/
def stampFood (w h : ℕ) (pSize : ℚ) (field : List ℚ) (foods : List Food) : List ℚ :=
  foods.foldl (fun f food =>
    let radiusSquared := food.radius * food.radius
    let effectiveRadius : ℤ := max 1 (Rat.floor (food.radius * pSize))
    (intRange (-effectiveRadius) effectiveRadius).foldl (fun f dy =>
      (intRange (-effectiveRadius) effectiveRadius).foldl (fun f dx =>
        let distanceSquared := ((dx : ℚ) * (dx : ℚ) + (dy : ℚ) * (dy : ℚ)) / (pSize * pSize)
        if distanceSquared ≤ radiusSquared then
          let px := Rat.floor (food.x + (dx : ℚ))
          let py := Rat.floor (food.y + (dy : ℚ))
          if 0 ≤ px ∧ px < (w : ℤ) ∧ 0 ≤ py ∧ py < (h : ℤ) then
            let idx := py * (w : ℤ) + px
            if 0 ≤ idx ∧ idx < (f.length : ℤ) then f.set idx.toNat food.strength
            else f
          else f
        else f) f) f) field

/-- The diffusion/decay pass (`diffuseChemicals`): stamp food sources into
the current field in place, then compute every cell of a fresh buffer as
`((disk mean) * diffusionRate + self * (1 - diffusionRate)) * (1 - decayRate)`,
the disk neighborhood wrapped with JavaScript `%` and guarded by the
array-bounds check of the source. -/
def diffuseChemicals (w h : ℕ) (prm : Params) (field : List ℚ) (foods : List Food) : List ℚ :=
  let stamped := stampFood w h prm.particleSize field foods
  let radius : ℤ := max 1 (Rat.floor prm.particleSize)
  (List.range (w * h)).map (fun idx =>
    let x : ℤ := ((idx % w : ℕ) : ℤ)
    let y : ℤ := ((idx / w : ℕ) : ℤ)
    let sc := (intRange (-radius) radius).foldl (fun sc dy =>
      (intRange (-radius) radius).foldl (fun sc dx =>
        if dx * dx + dy * dy ≤ radius * radius then
          let nx := jsModZ (x + dx + (w : ℤ)) (w : ℤ)
          let ny := jsModZ (y + dy + (h : ℤ)) (h : ℤ)
          let nidx := ny * (w : ℤ) + nx
          if 0 ≤ nidx ∧ nidx < (stamped.length : ℤ) then
            (sc.1 + stamped.getD nidx.toNat 0, sc.2 + 1)
          else sc
        else sc) sc) (((0 : ℚ), (0 : ℕ)))
    if 0 < sc.2 then
      (sc.1 / (sc.2 : ℚ) * prm.diffusionRate + stamped.getD idx 0 * (1 - prm.diffusionRate))
        * (1 - prm.decayRate)
    else 0)

/-- Operation `spawnStickyParticle(x, y)`: append one pinned particle with
zero velocity. -/
def spawnStickyParticle (e : Engine) (x y : ℚ) : Engine :=
  { e with particles := e.particles ++ [⟨x, y, 0, 0, 0, 0, true⟩] }

/-- Operation `addFoodSource(x, y, radius, strength)`. -/
def addFoodSource (e : Engine) (x y radius strength : ℚ) : Engine :=
  { e with foodSources := e.foodSources ++ [⟨x, y, radius, strength⟩] }

/-- Operation `removeFoodSourcesNear(x, y, radius)`: keep exactly the sources whose
squared center distance exceeds `radius²`. -/
def removeFoodSourcesNear (e : Engine) (x y radius : ℚ) : Engine :=
  let radiusSquared := radius * radius
  { e with foodSources := e.foodSources.filter (fun food =>
      let dx := food.x - x
      let dy := food.y - y
      decide (dx * dx + dy * dy > radiusSquared)) }

/-- Operation `clearFoodSources()`: drop all sources and zero the field. -/
def clearFoodSources (e : Engine) : Engine :=
  { e with foodSources := [], chemicalField := List.replicate (e.width * e.height) 0 }

/-- Operation `getState()`: the snapshot handed to the renderer. -/
def getState (e : Engine) : List Particle × List ℚ :=
  (e.particles, e.chemicalField)

/-- Spatial-hash cell of a particle (`updateGrid`):
`(floor (x / gridSize), floor (y / gridSize))`. -/
def gridCell (p : Particle) : ℤ × ℤ :=
  (Rat.floor (p.x / gridSize), Rat.floor (p.y / gridSize))

/-- Bucket of the hash grid at `key`: the indices (in insertion order) of
the particles of the tick-start list `ps0` lying in that cell.  The grid
holds live references, so readers see current positions; buckets are keyed
by tick-start positions. -/
def bucket (ps0 : List Particle) (key : ℤ × ℤ) : List ℕ :=
  (List.range ps0.length).filter (fun j => decide (gridCell (ps0.getD j default) = key))

/-- Accumulator of the neighbor scan in `calculateForces`. -/
structure FlockAcc where
  alignmentX : ℚ
  alignmentY : ℚ
  cohesionX : ℚ
  cohesionY : ℚ
  separationX : ℚ
  separationY : ℚ
  flockCount : ℕ
  hasNearbyStuck : Bool
deriving Repr, DecidableEq

/-- The all-zero scan accumulator. -/
def FlockAcc.zero : FlockAcc :=
  ⟨0, 0, 0, 0, 0, 0, 0, false⟩

/-- Visit one neighbor `o` of particle `p` in the scan loop of
`calculateForces`: update the sticking candidate flag, and inside the
perception radius the alignment/cohesion/separation sums and the flock
count. -/
def scanOther (M : MathFns) (prm : Params) (p o : Particle) (acc : FlockAcc) : FlockAcc :=
  let dx := o.x - p.x
  let dy := o.y - p.y
  let distance := M.sqrt (dx * dx + dy * dy)
  let acc :=
    if o.isStuck = true ∧ distance < prm.particleSize * 3 then
      { acc with hasNearbyStuck := true }
    else acc
  if distance < prm.perceptionRadius then
    let acc := { acc with
      alignmentX := acc.alignmentX + o.vx
      alignmentY := acc.alignmentY + o.vy
      cohesionX := acc.cohesionX + o.x
      cohesionY := acc.cohesionY + o.y }
    let acc :=
      if 0 < distance then
        let force := M.exp (-distance / (prm.perceptionRadius * (1 / 4)))
        { acc with
          separationX := acc.separationX - dx / distance * force
          separationY := acc.separationY - dy / distance * force }
      else acc
    { acc with flockCount := acc.flockCount + 1 }
  else acc

/-- The full neighbor scan of `calculateForces`: walk the square window of
`ceil (perceptionRadius / gridSize)` grid cells around the particle's cell
and fold `scanOther` over every bucketed particle except the particle
itself (reference equality becomes index equality). -/
def flockScan (M : MathFns) (prm : Params) (ps0 ps : List Particle) (i : ℕ)
    (p : Particle) : FlockAcc :=
  let gx := Rat.floor (p.x / gridSize)
  let gy := Rat.floor (p.y / gridSize)
  let radius := Rat.ceil (prm.perceptionRadius / gridSize)
  (intRange (-radius) radius).foldl (fun acc dy =>
    (intRange (-radius) radius).foldl (fun acc dx =>
      (bucket ps0 (gx + dx, gy + dy)).foldl (fun acc j =>
        if j = i then acc else scanOther M prm p (ps.getD j default) acc) acc) acc)
    FlockAcc.zero

/-- Whether the per-particle step marks a sticking candidate: the
`hasNearbyStuck` flag produced by the neighbor scan. -/
def stickingCandidate (M : MathFns) (prm : Params) (ps0 ps : List Particle) (i : ℕ) : Bool :=
  (flockScan M prm ps0 ps i (ps.getD i default)).hasNearbyStuck

/-- Operation `sense(particle)`: three field samples at `angle + i*sensorAngle`
(`i = -1, 0, 1`), offset by `sensorDistance * particleSize`, with 0 for
out-of-bounds sensors. -/
def sense (M : MathFns) (w h : ℕ) (prm : Params) (field : List ℚ) (p : Particle) : List ℚ :=
  let sensorDistance := prm.sensorDistance * prm.particleSize
  (intRange (-1) 1).map (fun i =>
    let angle := p.angle + (i : ℚ) * prm.sensorAngle
    let sensorX := p.x + M.cos angle * sensorDistance
    let sensorY := p.y + M.sin angle * sensorDistance
    if 0 ≤ sensorX ∧ sensorX < (w : ℚ) ∧ 0 ≤ sensorY ∧ sensorY < (h : ℚ) then
      let idx := Rat.floor sensorY * (w : ℤ) + Rat.floor sensorX
      if 0 ≤ idx ∧ idx < (field.length : ℤ) then field.getD idx.toNat 0 else 0
    else 0)

/-- Chemotaxis, flocking blend and renormalization of `calculateForces`:
the candidate velocity computed after the release check. -/
def forcesVelocity (M : MathFns) (w h : ℕ) (prm : Params) (field : List ℚ) (p : Particle)
    (acc : FlockAcc) (rng : RNG) : ℚ × ℚ × RNG :=
  let sensors := sense M w h prm field p
  let leftSensor := sensors.getD 0 0
  let centerSensor := sensors.getD 1 0
  let rightSensor := sensors.getD 2 0
  let maxSignal := max leftSensor (max centerSensor rightSensor)
  let (chemicalVx, chemicalVy, rng) :=
    if 0 < maxSignal then
      if leftSensor < centerSensor ∧ rightSensor < centerSensor then
        let boost := 1 + centerSensor * (1 / 2)
        (p.vx * boost, p.vy * boost, rng)
      else if rightSensor < leftSensor then
        let angle := p.angle - prm.turnSpeed
        (M.cos angle * p.speed, M.sin angle * p.speed, rng)
      else
        let angle := p.angle + prm.turnSpeed
        (M.cos angle * p.speed, M.sin angle * p.speed, rng)
    else
      let (r, rng') := rng.next
      let randomAngle := (r - 1 / 2) * prm.turnSpeed
      let angle := p.angle + randomAngle
      (M.cos angle * p.speed, M.sin angle * p.speed, rng')
  let (vx, vy) :=
    if 0 < acc.flockCount then
      let n : ℚ := (acc.flockCount : ℚ)
      let alignmentX := acc.alignmentX / n * prm.alignmentForce
      let alignmentY := acc.alignmentY / n * prm.alignmentForce
      let cohesionX := (acc.cohesionX / n - p.x) / prm.perceptionRadius * prm.cohesionForce
      let cohesionY := (acc.cohesionY / n - p.y) / prm.perceptionRadius * prm.cohesionForce
      let separationX := acc.separationX * (prm.separationForce / n)
      let separationY := acc.separationY * (prm.separationForce / n)
      (chemicalVx * (6 / 10) + (alignmentX + cohesionX + separationX) * (4 / 10),
       chemicalVy * (6 / 10) + (alignmentY + cohesionY + separationY) * (4 / 10))
    else (chemicalVx, chemicalVy)
  let speed := M.sqrt (vx * vx + vy * vy)
  if 0 < speed then
    (vx / speed * prm.moveSpeed, vy / speed * prm.moveSpeed, rng)
  else (vx, vy, rng)

/-- Tail of `calculateForces` after the sticking decision: the (dead, see
`C1`) release check, then chemotaxis, flocking blend and renormalization.
Returns the particle's new stuck flag, velocity, and the advanced random
stream. -/
def forcesRest (M : MathFns) (w h : ℕ) (prm : Params) (field : List ℚ) (p : Particle)
    (acc : FlockAcc) (rng : RNG) : Bool × ℚ × ℚ × RNG :=
  let s :=
    if p.isStuck = true then
      let (r, rng') := rng.next
      (if r < prm.releaseProbability then false else p.isStuck, rng')
    else (p.isStuck, rng)
  let v := forcesVelocity M w h prm field p acc s.2
  (s.1, v.1, v.2.1, v.2.2)

/-- Operation `calculateForces(particle)`: early return of a zero vector for
stuck particles,
neighbor scan, sticking roll (drawn only when a candidate was found; on
success the particle becomes stuck with zero velocity), then the rest of
the computation.  Result: new stuck flag, velocity, advanced stream. -/
def calculateForces (M : MathFns) (w h : ℕ) (prm : Params) (field : List ℚ)
    (ps0 ps : List Particle) (i : ℕ) (rng : RNG) : Bool × ℚ × ℚ × RNG :=
  let p := ps.getD i default
  if p.isStuck = true then (true, 0, 0, rng)
  else
    let acc := flockScan M prm ps0 ps i p
    if acc.hasNearbyStuck = true then
      let (r, rng1) := rng.next
      if r < prm.stickingProbability then (true, 0, 0, rng1)
      else forcesRest M w h prm field p acc rng1
    else forcesRest M w h prm field p acc rng

/-- Operation `updateParticle(particle)`: skip stuck particles entirely; otherwise
run `calculateForces`, store velocity/heading/speed, integrate and wrap the
position with one JavaScript `%` per axis, and deposit chemical. -/
def updateParticle (M : MathFns) (w h : ℕ) (prm : Params) (ps0 : List Particle)
    (st : List Particle × List ℚ × RNG) (i : ℕ) : List Particle × List ℚ × RNG :=
  let (ps, field, rng) := st
  let p := ps.getD i default
  if p.isStuck = true then (ps, field, rng)
  else
    let c := calculateForces M w h prm field ps0 ps i rng
    let x1 := jsModQ (p.x + c.2.1 + (w : ℚ)) (w : ℚ)
    let y1 := jsModQ (p.y + c.2.2.1 + (h : ℚ)) (h : ℚ)
    let p1 : Particle := ⟨x1, y1, M.atan2 c.2.2.1 c.2.1, prm.moveSpeed, c.2.1, c.2.2.1, c.1⟩
    (ps.set i p1, depositDisk w h prm.particleSize prm.chemicalDepositRate x1 y1 field,
      c.2.2.2)

/-- Operation `update()`: rebuild the grid from current positions, run
`updateParticle` over the particle list in order (later particles see
earlier updates through the live references), then diffuse. -/
def update (M : MathFns) (e : Engine) (rng : RNG) : Engine × RNG :=
  let ps0 := e.particles
  let st := (List.range e.particles.length).foldl
    (updateParticle M e.width e.height e.params ps0) (e.particles, e.chemicalField, rng)
  ({ e with particles := st.1,
            chemicalField := diffuseChemicals e.width e.height e.params st.2.1 e.foodSources },
   st.2.2)

/-- One tick as driven by the render loop (`SimulationCanvas.render`):
`engine.update()` is called only when the pause flag is off. -/
def tick (M : MathFns) (e : Engine) (rng : RNG) : Engine × RNG :=
  if e.params.isPaused = true then (e, rng) else update M e rng

/-- Spawn one random particle (the object literal of
`initializeParticles` / `updateParams`): five `Math.random()` draws, in
source order; heading and velocity direction are independent draws. -/
def spawnOne (M : MathFns) (w h : ℕ) (prm : Params) (rng : RNG) : Particle × RNG :=
  let (r1, rng) := rng.next
  let (r2, rng) := rng.next
  let (r3, rng) := rng.next
  let (r4, rng) := rng.next
  let (r5, rng) := rng.next
  (⟨r1 * (w : ℚ), r2 * (h : ℚ), r3 * M.pi * 2, prm.moveSpeed,
    M.cos (r4 * M.pi * 2) * prm.moveSpeed, M.sin (r5 * M.pi * 2) * prm.moveSpeed, false⟩,
   rng)

/-- Operation `initializeParticles()`: discard everything and spawn
`particleCount` fresh random particles. -/
def initializeParticles (M : MathFns) (w h : ℕ) (prm : Params) (rng : RNG) :
    List Particle × RNG :=
  (List.range prm.particleCount).foldl (fun acc _ =>
    let pr := spawnOne M w h prm acc.2
    (acc.1 ++ [pr.1], pr.2)) ([], rng)

/-- The indices of the non-stuck particles, reversed (the removal order of
`updateParams`: from the tail, to avoid index shifting). -/
def nonStuckIndices (ps : List Particle) : List ℕ :=
  (((List.range ps.length).filter (fun j => !(ps.getD j default).isStuck))).reverse

/-- The removal step of `updateParams` for `particlesToRemove` excess
particles: splice non-stuck particles from the tail first, then, if still
short, splice the remainder off the end of the list. -/
def removeParticles (ps : List Particle) (particlesToRemove : ℕ) : List Particle :=
  let st := (nonStuckIndices ps).foldl (fun acc idx =>
    if particlesToRemove ≤ acc.2 then acc else (acc.1.eraseIdx idx, acc.2 + 1)) (ps, 0)
  if st.2 < particlesToRemove then st.1.take (st.1.length - (particlesToRemove - st.2))
  else st.1

/-- The speed-rescale pass of `updateParams`: non-stuck particles have
their velocity rescaled to the new `moveSpeed` (no-op on zero speed) and
their `speed` field set; stuck particles are untouched. -/
def rescaleParticle (M : MathFns) (moveSpeed : ℚ) (p : Particle) : Particle :=
  if p.isStuck = true then p
  else
    let currentSpeed := M.sqrt (p.vx * p.vx + p.vy * p.vy)
    let p1 :=
      if 0 < currentSpeed then
        let scale := moveSpeed / currentSpeed
        { p with vx := p.vx * scale, vy := p.vy * scale }
      else p
    { p1 with speed := moveSpeed }

/-- Operation `updateParams(newParams)`: swap the parameter record, append random
particles on a count increase, remove preferring non-stuck on a decrease,
then rescale speeds. -/
def updateParams (M : MathFns) (e : Engine) (newParams : Params) (rng : RNG) :
    Engine × RNG :=
  let oldParticleCount := e.params.particleCount
  let newParticleCount := newParams.particleCount
  let e1 := { e with params := newParams }
  let pr :=
    if oldParticleCount < newParticleCount then
      (List.range (newParticleCount - oldParticleCount)).foldl (fun acc _ =>
        let pr := spawnOne M e1.width e1.height newParams acc.2
        (acc.1 ++ [pr.1], pr.2)) (e1.particles, rng)
    else if newParticleCount < oldParticleCount then
      (removeParticles e1.particles (oldParticleCount - newParticleCount), rng)
    else (e1.particles, rng)
  ({ e1 with particles := pr.1.map (rescaleParticle M newParams.moveSpeed) }, pr.2)

/-- The constructor: allocate a zero field of `width*height` cells and
spawn the initial particles. -/
def mkEngine (M : MathFns) (w h : ℕ) (prm : Params) (rng : RNG) : Engine × RNG :=
  let pr := initializeParticles M w h prm rng
  (⟨w, h, prm, pr.1, List.replicate (w * h) 0, []⟩, pr.2)

/-- Operation `restartParticles()`. -/
def restartParticles (M : MathFns) (e : Engine) (rng : RNG) : Engine × RNG :=
  let pr := initializeParticles M e.width e.height e.params rng
  ({ e with particles := pr.1 }, pr.2)

/-- The engine states reachable through the public interface. -/
inductive Reachable (M : MathFns) : Engine → Prop where
  | init : ∀ (w h : ℕ) (prm : Params) (rng : RNG), Reachable M (mkEngine M w h prm rng).1
  | step : ∀ (e : Engine) (rng : RNG), Reachable M e → Reachable M (update M e rng).1
  | reconcile : ∀ (e : Engine) (newParams : Params) (rng : RNG), Reachable M e →
      Reachable M (updateParams M e newParams rng).1
  | spawn : ∀ (e : Engine) (x y : ℚ), Reachable M e → Reachable M (spawnStickyParticle e x y)
  | restart : ∀ (e : Engine) (rng : RNG), Reachable M e →
      Reachable M (restartParticles M e rng).1
  | addFood : ∀ (e : Engine) (x y r s : ℚ), Reachable M e →
      Reachable M (addFoodSource e x y r s)
  | removeFood : ∀ (e : Engine) (x y r : ℚ), Reachable M e →
      Reachable M (removeFoodSourcesNear e x y r)
  | clearFood : ∀ (e : Engine), Reachable M e → Reachable M (clearFoodSources e)

/-- The iteration space of every disk loop of the engine: offsets
`(dx, dy) ∈ [-radius, radius]²` with `dx² + dy² ≤ radius²`, in source
iteration order (`dy` outer, `dx` inner). -/
def diskOffsets (radius : ℤ) : List (ℤ × ℤ) :=
  (intRange (-radius) radius).flatMap (fun dy =>
    ((intRange (-radius) radius).filter
      (fun dx => decide (dx * dx + dy * dy ≤ radius * radius))).map (fun dx => (dx, dy)))

/-- The body of the deposit loop for a single offset. -/
def depositCell (w h : ℕ) (v : ℚ) (x y : ℚ) (f : List ℚ) (o : ℤ × ℤ) : List ℚ :=
  let px := Rat.floor (x + (o.1 : ℚ))
  let py := Rat.floor (y + (o.2 : ℚ))
  if 0 ≤ px ∧ px < (w : ℤ) ∧ 0 ≤ py ∧ py < (h : ℤ) then
    let idx := py * (w : ℤ) + px
    if 0 ≤ idx ∧ idx < (f.length : ℤ) then
      f.set idx.toNat (min 1 (f.getD idx.toNat 0 + v))
    else f
  else f

/-- Flat cell index written by the deposit loop at offset `o`. -/
def depositIdx (w : ℕ) (x y : ℚ) (o : ℤ × ℤ) : ℤ :=
  Rat.floor (y + (o.2 : ℚ)) * (w : ℤ) + Rat.floor (x + (o.1 : ℚ))

/-- The deposit cell at offset `o` lies inside the `w × h` grid. -/
def depositInBounds (w h : ℕ) (x y : ℚ) (o : ℤ × ℤ) : Prop :=
  0 ≤ Rat.floor (x + (o.1 : ℚ)) ∧ Rat.floor (x + (o.1 : ℚ)) < (w : ℤ) ∧
  0 ≤ Rat.floor (y + (o.2 : ℚ)) ∧ Rat.floor (y + (o.2 : ℚ)) < (h : ℤ)

/-- Flat index of the toroidally wrapped neighbor of cell `(x, y)` at
offset `o`, as the diffusion loop computes it. -/
def wrapIdx (w h : ℕ) (x y : ℤ) (o : ℤ × ℤ) : ℤ :=
  jsModZ (y + o.2 + (h : ℤ)) (h : ℤ) * (w : ℤ) + jsModZ (x + o.1 + (w : ℤ)) (w : ℤ)

/-- One diffusion/decay pass with no food sources (the "no activity"
field step of the spec's §8). -/
def stepNoActivity (w h : ℕ) (prm : Params) (field : List ℚ) : List ℚ :=
  diffuseChemicals w h prm field []

/-- Modelled from the spec and claim C3's wording: the claimed per-cell
diffusion result, `diffusionRate` times the mean of a given neighborhood
sample list plus `1 - diffusionRate` times a given self value, decayed by
`1 - decayRate`.  Claim C3 instantiates the neighborhood with the
8-neighbor Moore ring and the self value with the pre-injection cell. -/
def specDiffusedValue (diffusionRate decayRate selfValue : ℚ)
    (neighborhood : List ℚ) : ℚ :=
  (neighborhood.sum / (neighborhood.length : ℚ) * diffusionRate
    + selfValue * (1 - diffusionRate)) * (1 - decayRate)

/-- A concrete interpretation of the math functions for the concrete
configurations below; `sqrt` is exact at `400`, the only value any of
those configurations ever takes a square root of. -/
def M0 : MathFns :=
  ⟨fun _ => 0, fun _ => 0, fun _ _ => 0, fun q => if q = 400 then 20 else 0, fun _ => 0, 0⟩

/-- A concrete random stream. -/
def rng0 : RNG :=
  ⟨fun _ => 0, 0⟩

/-- A base parameter record for the concrete configurations. -/
def prm0 : Params :=
  ⟨0, 0, 0, 0, 0, 0, 0, 0, 0, 0, 0, 0, 1, 0, 0, false⟩

/-- A pinned particle, as `spawnStickyParticle` creates it. -/
def stickyP : Particle :=
  ⟨1, 1, 0, 0, 0, 0, true⟩

/-- Parameters for the C1 witness: certain release. -/
def prm1 : Params :=
  { prm0 with releaseProbability := 1 }

/-- All-zero 5×3 field for the C2 configuration. -/
def field2 : List ℚ :=
  List.replicate 15 0

/-- Parameters for the C2 configuration: deposit rate `1/10`, particle
size 1 (deposit radius 1). -/
def prm2 : Params :=
  { prm0 with chemicalDepositRate := 1 / 10 }

/-- Parameters for the C3 pre/post-injection configuration: zero
diffusion and decay, so the pass returns each cell's self value. -/
def prm3a : Params :=
  { prm0 with diffusionRate := 0, decayRate := 0 }

/-- The food source of the C3 configuration. -/
def food3 : Food :=
  ⟨0, 0, 1, 7 / 10⟩

/-- Parameters for the C3 neighborhood-shape configuration: full
diffusion weight, no decay. -/
def prm3b : Params :=
  { prm0 with diffusionRate := 1, decayRate := 0 }

/-- Field of size 3×3 for the C3 configuration: a single unit cell at
`(1, 0)`, north of the center cell `(1, 1)`. -/
def field3 : List ℚ :=
  [0, 1, 0, 0, 0, 0, 0, 0, 0]

/-- Field of size 3×1 for the C5 configuration: one hot cell. -/
def field5 : List ℚ :=
  [1, 0, 0]

/-- Parameters for the C5 witness: genuine diffusion and decay. -/
def prm5w : Params :=
  { prm0 with diffusionRate := 1 / 2, decayRate := 1 / 2 }

/-- Particles for the C6 configuration: the stepped particle at `(5,5)`
(grid cell `(0,0)`) and a stuck particle at `(25,5)` (grid cell `(2,0)`),
Euclidean distance 20. -/
def ps6 : List Particle :=
  [⟨5, 5, 0, 0, 0, 0, false⟩, ⟨25, 5, 0, 0, 0, 0, true⟩]

/-- C6 parameters with a small perception radius: scan window is one grid
cell. -/
def prm6a : Params :=
  { prm0 with perceptionRadius := 1, particleSize := 10 }

/-- C6 parameters identical to `prm6a` except for `perceptionRadius`:
scan window is two grid cells. -/
def prm6b : Params :=
  { prm6a with perceptionRadius := 11 }

/-- C6 parameters identical to `prm6a` except for `perceptionRadius`, but
with the same one-cell scan window (`ceil(9/10) = ceil(1/10) = 1`). -/
def prm6c : Params :=
  { prm6a with perceptionRadius := 9 }

/-- A loose non-stuck particle for the C7 configuration. -/
def p7 : Particle :=
  ⟨2, 2, 0, 0, 0, 0, false⟩

/-- Engine for the C7 witness: three particles, the middle one stuck. -/
def e7 : Engine :=
  ⟨10, 10, { prm0 with particleCount := 3 }, [p7, stickyP, p7], List.replicate 100 0, []⟩

/-- New parameter record for the C7 witness: one particle fewer. -/
def prm7 : Params :=
  { prm0 with particleCount := 2 }

/-- Engine for the C8 configuration: one food source at `(3,4)`, at
distance exactly 5 from the origin. -/
def e8 : Engine :=
  ⟨10, 10, prm0, [], List.replicate 100 0, [⟨3, 4, 1, 1⟩]⟩

/-- Engine for the C9 witness: paused, with some state of every kind. -/
def e9 : Engine :=
  ⟨1, 1, { prm0 with isPaused := true }, [stickyP], [1 / 2], [⟨0, 0, 1, 1⟩]⟩

/-- Engine for the C4 witness: a freshly constructed empty engine with
one pinned particle spawned into it. -/
def e4 : Engine :=
  spawnStickyParticle (mkEngine M0 2 2 prm0 rng0).1 1 1

/-! Generic list lemmas used to reshape the loop nests. -/

theorem foldl_ite_filter {α β : Type} (c : β → Prop) [DecidablePred c] (f : α → β → α) :
    ∀ (l : List β) (a : α),
      l.foldl (fun acc b => if c b then f acc b else acc) a =
        (l.filter (fun b => decide (c b))).foldl f a := by
  intro l
  induction l with
  | nil => intro a; rfl
  | cons b l ih =>
    intro a
    by_cases hb : c b <;> simp [hb, ih]

theorem foldl_flatMap {α β γ : Type} (g : β → List γ) (f : α → γ → α) :
    ∀ (l : List β) (a : α),
      (l.flatMap g).foldl f a = l.foldl (fun acc b => (g b).foldl f acc) a := by
  intro l
  induction l with
  | nil => intro a; rfl
  | cons b l ih => intro a; simp [List.flatMap_cons, List.foldl_append, ih]

/-! Arithmetic of the JavaScript remainder. -/

theorem ratTrunc_of_nonneg (q : ℚ) (h : 0 ≤ q) : ratTrunc q = ⌊q⌋ := by
  rw [ratTrunc, if_pos h, Rat.floor_def', Rat.floor_def]

theorem jsModQ_nonneg_of_nonneg (a b : ℚ) (hb : 0 < b) (ha : 0 ≤ a) :
    0 ≤ jsModQ a b ∧ jsModQ a b < b := by
  have hb' : b ≠ 0 := ne_of_gt hb
  have ha' : 0 ≤ a / b := div_nonneg ha (le_of_lt hb)
  have key : jsModQ a b = b * (a / b - ⌊a / b⌋) := by
    rw [jsModQ, ratTrunc_of_nonneg _ ha', mul_sub, mul_div_cancel₀ a hb']
  have h0 : (0 : ℚ) ≤ a / b - ⌊a / b⌋ := by
    have := Int.fract_nonneg (a / b)
    rwa [Int.fract] at this
  have h1 : a / b - ⌊a / b⌋ < 1 := by
    have := Int.fract_lt_one (a / b)
    rwa [Int.fract] at this
  constructor
  · rw [key]; exact mul_nonneg (le_of_lt hb) h0
  · rw [key]
    calc b * (a / b - ⌊a / b⌋) < b * 1 := by
          exact mul_lt_mul_of_pos_left h1 hb
      _ = b := mul_one b

/-- Claim C10: after one tick's position integration and single
sign-preserving modulo wrap (`x := (x + vx + width) % width`, likewise for
`y`), coordinates lie in `[0, width) × [0, height)` provided the
displacement satisfies `vx ≥ -width` and `vy ≥ -height`; the renormalized
velocity of magnitude `moveSpeed ≤ min(width, height)` satisfies exactly
that; and a displacement more negative than `-width` can leave a negative
coordinate (here `x = 5`, `vx = -26`, `width = 10` gives `-1`). -/
theorem wrap_bounds :
    (∀ (w h x y vx vy : ℚ), 0 < w → 0 < h → 0 ≤ x → 0 ≤ y → -w ≤ vx → -h ≤ vy →
      0 ≤ jsModQ (x + vx + w) w ∧ jsModQ (x + vx + w) w < w ∧
      0 ≤ jsModQ (y + vy + h) h ∧ jsModQ (y + vy + h) h < h) ∧
    (∀ (s w vx vy : ℚ), 0 ≤ s → s ≤ w → vx * vx + vy * vy = s * s → -w ≤ vx) ∧
    jsModQ ((5 : ℚ) + -26 + 10) 10 < 0 := by
  refine ⟨?_, ?_, ?_⟩
  · intro w h x y vx vy hw hh hx hy hvx hvy
    have h1 := jsModQ_nonneg_of_nonneg (x + vx + w) w hw (by linarith)
    have h2 := jsModQ_nonneg_of_nonneg (y + vy + h) h hh (by linarith)
    exact ⟨h1.1, h1.2, h2.1, h2.2⟩
  · intro s w vx vy hs hsw hv
    by_cases hc : -s ≤ vx
    · linarith
    · push_neg at hc
      have h1 : s * s < vx * vx := by nlinarith
      nlinarith [mul_self_nonneg vy]
  · norm_num [jsModQ, ratTrunc, Rat.floor_def']

/-- Witness for `wrap_bounds` at a concrete input. -/
theorem wrap_bounds_witness :
    (0 ≤ jsModQ ((5 : ℚ) + -1 + 10) 10 ∧ jsModQ ((5 : ℚ) + -1 + 10) 10 < 10 ∧
      0 ≤ jsModQ ((5 : ℚ) + -1 + 10) 10 ∧ jsModQ ((5 : ℚ) + -1 + 10) 10 < 10) ∧
    -(10 : ℚ) ≤ -1 :=
  ⟨wrap_bounds.1 10 10 5 5 (-1) (-1) (by norm_num) (by norm_num) (by norm_num)
      (by norm_num) (by norm_num) (by norm_num),
   wrap_bounds.2.1 1 10 (-1) 0 (by norm_num) (by norm_num) (by norm_num)⟩

/-- Claim C8 counterexample: the food source at `(3, 4)` lies at distance
exactly 5 from the origin, yet `removeFoodSourcesNear(0, 0, 5)` removes it
(the filter keeps only squared distance strictly greater than `radius²`),
while the claim says a source at distance exactly `radius` is kept. -/
theorem removeFood_boundary_counterexample :
    ((3 : ℚ) - 0) * (3 - 0) + ((4 : ℚ) - 0) * (4 - 0) = 5 * 5 ∧
    (removeFoodSourcesNear e8 0 0 5).foodSources = [] := by
  constructor
  · norm_num
  · rw [show (removeFoodSourcesNear e8 0 0 5).foodSources
        = List.filter (fun food : Food => decide
            ((food.x - 0) * (food.x - 0) + (food.y - 0) * (food.y - 0) > 5 * 5))
            [⟨3, 4, 1, 1⟩] from rfl,
      List.filter_cons]
    norm_num

/-- Claim C8 amended: `removeFoodSourcesNear(x, y, radius)` keeps the
sources in order and content, removing exactly those whose squared center
distance is at most `radius²` — i.e. sources strictly within the radius
and also those at distance exactly `radius`. -/
theorem removeFood_characterization (e : Engine) (x y radius : ℚ) :
    ((removeFoodSourcesNear e x y radius).foodSources.Sublist e.foodSources) ∧
    (∀ food : Food, food ∈ (removeFoodSourcesNear e x y radius).foodSources ↔
      food ∈ e.foodSources ∧
        radius * radius < (food.x - x) * (food.x - x) + (food.y - y) * (food.y - y)) := by
  constructor
  · exact List.filter_sublist _
  · intro food
    simp [removeFoodSourcesNear, List.mem_filter]

/-- Claim C9: with the pause flag set in the current parameter record, a
render-loop tick calls no engine mutation at all: the engine state and the
snapshot are unchanged. -/
theorem paused_tick_is_identity (M : MathFns) (e : Engine) (rng : RNG)
    (hp : e.params.isPaused = true) :
    tick M e rng = (e, rng) ∧ getState (tick M e rng).1 = getState e := by
  simp [tick, hp]

/-- Witness for `paused_tick_is_identity` on a concrete paused engine. -/
theorem paused_tick_is_identity_witness :
    tick M0 e9 rng0 = (e9, rng0) ∧ getState (tick M0 e9 rng0).1 = getState e9 :=
  paused_tick_is_identity M0 e9 rng0 rfl

/-- Claim C1 (code bug): a particle that is stuck at the start of a tick
never reaches the release evaluation.  `updateParticle` returns before
`calculateForces` is even called (and `calculateForces` itself also
returns early on `isStuck`), so the release block guarded by
`particle.isStuck && Math.random() < releaseProbability` is dead code: the
whole per-particle step is the identity, draws no random value (the stream
cursor is unchanged), and leaves `isStuck = true` even when
`releaseProbability = 1`. -/
theorem stuck_particles_never_reach_release (M : MathFns) (w h : ℕ) (prm : Params)
    (ps0 ps : List Particle) (field : List ℚ) (rng : RNG) (i : ℕ)
    (hstuck : (ps.getD i default).isStuck = true)
    (hrel : prm.releaseProbability = 1) :
    updateParticle M w h prm ps0 (ps, field, rng) i = (ps, field, rng) := by
  simp only [updateParticle, hstuck]
  simp

/-- Witness for `stuck_particles_never_reach_release`: a concrete stuck
particle with certain release survives the step unchanged. -/
theorem stuck_particles_never_reach_release_witness :
    updateParticle M0 1 1 prm1 [stickyP] ([stickyP], [0], rng0) 0 = ([stickyP], [0], rng0) :=
  stuck_particles_never_reach_release M0 1 1 prm1 [stickyP] [stickyP] [0] rng0 0 rfl rfl

/-! Claim C5: the diffusion pass with no activity. -/

theorem foldl_preserve {α β : Type} (P : α → Prop) (f : α → β → α)
    (hf : ∀ a b, P a → P (f a b)) : ∀ (l : List β) (a : α), P a → P (l.foldl f a) := by
  intro l
  induction l with
  | nil => intro a ha; exact ha
  | cons b l ih => intro a ha; exact ih (f a b) (hf a b ha)

theorem getD_map_range (n : ℕ) (f : ℕ → ℚ) (i : ℕ) :
    ((List.range n).map f).getD i 0 = if i < n then f i else 0 := by
  by_cases h : i < n
  · have hlen : i < ((List.range n).map f).length := by
      simpa [List.length_map, List.length_range] using h
    rw [List.getD_eq_getElem _ _ hlen, if_pos h]
    simp [List.getElem_map, List.getElem_range]
  · have hlen : ((List.range n).map f).length ≤ i := by
      simpa [List.length_map, List.length_range] using Nat.le_of_not_lt h
    rw [List.getD_eq_default _ _ hlen, if_neg h]

/-- The accumulator invariant of the diffusion neighborhood loop: the sum
of visited in-bounds cells is between 0 and `count * Mx` whenever every
cell of the sampled field is. -/
theorem blur_acc_invariant (Mx : ℚ) (g : List ℚ)
    (hg : ∀ j, 0 ≤ g.getD j 0 ∧ g.getD j 0 ≤ Mx) (w h : ℕ) (radius : ℤ) (x y : ℤ) :
    0 ≤ ((intRange (-radius) radius).foldl (fun sc dy =>
          (intRange (-radius) radius).foldl (fun sc dx =>
            if dx * dx + dy * dy ≤ radius * radius then
              let nx := jsModZ (x + dx + (w : ℤ)) (w : ℤ)
              let ny := jsModZ (y + dy + (h : ℤ)) (h : ℤ)
              let nidx := ny * (w : ℤ) + nx
              if 0 ≤ nidx ∧ nidx < (g.length : ℤ) then
                (sc.1 + g.getD nidx.toNat 0, sc.2 + 1)
              else sc
            else sc) sc) (((0 : ℚ), (0 : ℕ)))).1 ∧
      ((intRange (-radius) radius).foldl (fun sc dy =>
          (intRange (-radius) radius).foldl (fun sc dx =>
            if dx * dx + dy * dy ≤ radius * radius then
              let nx := jsModZ (x + dx + (w : ℤ)) (w : ℤ)
              let ny := jsModZ (y + dy + (h : ℤ)) (h : ℤ)
              let nidx := ny * (w : ℤ) + nx
              if 0 ≤ nidx ∧ nidx < (g.length : ℤ) then
                (sc.1 + g.getD nidx.toNat 0, sc.2 + 1)
              else sc
            else sc) sc) (((0 : ℚ), (0 : ℕ)))).1 ≤
        (((intRange (-radius) radius).foldl (fun sc dy =>
          (intRange (-radius) radius).foldl (fun sc dx =>
            if dx * dx + dy * dy ≤ radius * radius then
              let nx := jsModZ (x + dx + (w : ℤ)) (w : ℤ)
              let ny := jsModZ (y + dy + (h : ℤ)) (h : ℤ)
              let nidx := ny * (w : ℤ) + nx
              if 0 ≤ nidx ∧ nidx < (g.length : ℤ) then
                (sc.1 + g.getD nidx.toNat 0, sc.2 + 1)
              else sc
            else sc) sc) (((0 : ℚ), (0 : ℕ)))).2 : ℚ) * Mx := by
  have hstep : ∀ (sc : ℚ × ℕ) (dy dx : ℤ),
      (0 ≤ sc.1 ∧ sc.1 ≤ (sc.2 : ℚ) * Mx) →
      (0 ≤ (if dx * dx + dy * dy ≤ radius * radius then
              let nx := jsModZ (x + dx + (w : ℤ)) (w : ℤ)
              let ny := jsModZ (y + dy + (h : ℤ)) (h : ℤ)
              let nidx := ny * (w : ℤ) + nx
              if 0 ≤ nidx ∧ nidx < (g.length : ℤ) then
                (sc.1 + g.getD nidx.toNat 0, sc.2 + 1)
              else sc
            else sc).1 ∧
       (if dx * dx + dy * dy ≤ radius * radius then
              let nx := jsModZ (x + dx + (w : ℤ)) (w : ℤ)
              let ny := jsModZ (y + dy + (h : ℤ)) (h : ℤ)
              let nidx := ny * (w : ℤ) + nx
              if 0 ≤ nidx ∧ nidx < (g.length : ℤ) then
                (sc.1 + g.getD nidx.toNat 0, sc.2 + 1)
              else sc
            else sc).1 ≤
         (((if dx * dx + dy * dy ≤ radius * radius then
              let nx := jsModZ (x + dx + (w : ℤ)) (w : ℤ)
              let ny := jsModZ (y + dy + (h : ℤ)) (h : ℤ)
              let nidx := ny * (w : ℤ) + nx
              if 0 ≤ nidx ∧ nidx < (g.length : ℤ) then
                (sc.1 + g.getD nidx.toNat 0, sc.2 + 1)
              else sc
            else sc).2 : ℕ) : ℚ) * Mx) := by
    intro sc dy dx hsc
    by_cases hdisk : dx * dx + dy * dy ≤ radius * radius
    · simp only [if_pos hdisk]
      by_cases hin : 0 ≤ jsModZ (y + dy + (h : ℤ)) (h : ℤ) * (w : ℤ) +
          jsModZ (x + dx + (w : ℤ)) (w : ℤ) ∧
          jsModZ (y + dy + (h : ℤ)) (h : ℤ) * (w : ℤ) +
          jsModZ (x + dx + (w : ℤ)) (w : ℤ) < (g.length : ℤ)
      · simp only [if_pos hin]
        have hv := hg (jsModZ (y + dy + (h : ℤ)) (h : ℤ) * (w : ℤ) +
          jsModZ (x + dx + (w : ℤ)) (w : ℤ)).toNat
        constructor
        · exact add_nonneg hsc.1 hv.1
        · push_cast
          nlinarith [hsc.2, hv.2]
      · simp only [if_neg hin]
        exact hsc
    · simp only [if_neg hdisk]
      exact hsc
  have main := foldl_preserve (fun sc : ℚ × ℕ => 0 ≤ sc.1 ∧ sc.1 ≤ (sc.2 : ℚ) * Mx)
    (fun sc dy => (intRange (-radius) radius).foldl (fun sc dx =>
        if dx * dx + dy * dy ≤ radius * radius then
          let nx := jsModZ (x + dx + (w : ℤ)) (w : ℤ)
          let ny := jsModZ (y + dy + (h : ℤ)) (h : ℤ)
          let nidx := ny * (w : ℤ) + nx
          if 0 ≤ nidx ∧ nidx < (g.length : ℤ) then
            (sc.1 + g.getD nidx.toNat 0, sc.2 + 1)
          else sc
        else sc) sc)
    (fun sc dy hsc => foldl_preserve _ _ (fun sc' dx hsc' => hstep sc' dy dx hsc')
      (intRange (-radius) radius) sc hsc)
    (intRange (-radius) radius) ((0 : ℚ), (0 : ℕ)) (by norm_num)
  exact main

/-- Single pass of `stepNoActivity` stays within `(1 - decayRate) * Mx`
when the input field is within `Mx`. -/
theorem stepNoActivity_cell_bound (w h : ℕ) (prm : Params)
    (hd0 : 0 ≤ prm.diffusionRate) (hd1 : prm.diffusionRate ≤ 1)
    (hc0 : 0 ≤ prm.decayRate) (hc1 : prm.decayRate ≤ 1)
    (Mx : ℚ) (hM : 0 ≤ Mx) (field : List ℚ)
    (hf : ∀ j, 0 ≤ field.getD j 0 ∧ field.getD j 0 ≤ Mx) (i : ℕ) :
    0 ≤ (stepNoActivity w h prm field).getD i 0 ∧
      (stepNoActivity w h prm field).getD i 0 ≤ (1 - prm.decayRate) * Mx := by
  have hdm : 0 ≤ (1 - prm.decayRate) * Mx := mul_nonneg (by linarith) hM
  have hstamp : stampFood w h prm.particleSize field [] = field := rfl
  rw [stepNoActivity, diffuseChemicals, hstamp]
  rw [getD_map_range]
  by_cases hi : i < w * h
  · rw [if_pos hi]
    set radius : ℤ := max 1 (Rat.floor prm.particleSize) with hradius
    have hacc := blur_acc_invariant Mx field hf w h radius ((i % w : ℕ) : ℤ) ((i / w : ℕ) : ℤ)
    set sc := (intRange (-radius) radius).foldl (fun sc dy =>
        (intRange (-radius) radius).foldl (fun sc dx =>
          if dx * dx + dy * dy ≤ radius * radius then
            let nx := jsModZ (((i % w : ℕ) : ℤ) + dx + (w : ℤ)) (w : ℤ)
            let ny := jsModZ (((i / w : ℕ) : ℤ) + dy + (h : ℤ)) (h : ℤ)
            let nidx := ny * (w : ℤ) + nx
            if 0 ≤ nidx ∧ nidx < (field.length : ℤ) then
              (sc.1 + field.getD nidx.toNat 0, sc.2 + 1)
            else sc
          else sc) sc) (((0 : ℚ), (0 : ℕ))) with hsc
    by_cases hcount : 0 < sc.2
    · rw [if_pos hcount]
      have hcpos : (0 : ℚ) < (sc.2 : ℚ) := by exact_mod_cast hcount
      have hmean0 : 0 ≤ sc.1 / (sc.2 : ℚ) := div_nonneg hacc.1 (le_of_lt hcpos)
      have hmean1 : sc.1 / (sc.2 : ℚ) ≤ Mx := by
        rw [div_le_iff hcpos]
        calc sc.1 ≤ (sc.2 : ℚ) * Mx := hacc.2
          _ = Mx * (sc.2 : ℚ) := mul_comm _ _
      have hself := hf i
      constructor
      · have hblend : 0 ≤ sc.1 / (sc.2 : ℚ) * prm.diffusionRate +
            field.getD i 0 * (1 - prm.diffusionRate) := by
          have := mul_nonneg hmean0 hd0
          have := mul_nonneg hself.1 (by linarith : (0:ℚ) ≤ 1 - prm.diffusionRate)
          linarith
        exact mul_nonneg hblend (by linarith)
      · have hblend : sc.1 / (sc.2 : ℚ) * prm.diffusionRate +
            field.getD i 0 * (1 - prm.diffusionRate) ≤ Mx := by
          nlinarith [hmean1, hself.2, hmean0, hself.1]
        nlinarith [hblend, mul_nonneg (add_nonneg (mul_nonneg hmean0 hd0)
          (mul_nonneg hself.1 (by linarith : (0:ℚ) ≤ 1 - prm.diffusionRate)))
          (by linarith : (0:ℚ) ≤ 1 - prm.decayRate)]
    · rw [if_neg hcount]
      exact ⟨le_refl 0, hdm⟩
  · rw [if_neg hi]
    exact ⟨le_refl 0, hdm⟩

theorem intRange_neg_one_one : intRange (-1) 1 = [-1, 0, 1] := by
  decide

set_option maxHeartbeats 2000000 in
/-- Claim C5 counterexample: with no particles and no food sources,
`diffusionRate = 1`, `decayRate = 0` on the 3×1 field `[1, 0, 0]`, the
pass raises cell 1 from 0 to 1/5 — the pass is not pointwise
non-increasing. -/
theorem diffusion_pointwise_increase_counterexample :
    field5.getD 1 0 = 0 ∧ (stepNoActivity 3 1 prm3b field5).getD 1 0 = 1 / 5 := by
  constructor
  · rfl
  · rw [stepNoActivity, diffuseChemicals, show stampFood 3 1 prm3b.particleSize field5 [] = field5
      from rfl, getD_map_range]
    norm_num [field5, prm3b, prm0, intRange_neg_one_one, jsModZ, Rat.floor_def', List.foldl]
    norm_num [show Int.toNat 2 = 2 from rfl]

/-- Claim C5 amended: with zero particles and zero food sources, repeated
passes never push any cell above `(1 - decayRate)^n * Mx` where `Mx`
bounds the initial field, and keep every cell nonnegative — the maximum
decays geometrically toward 0 (individual cells may transiently increase
as mass diffuses into them, so pointwise monotone decrease fails; see the
counterexample). -/
theorem diffusion_sup_decay (w h : ℕ) (prm : Params)
    (hd0 : 0 ≤ prm.diffusionRate) (hd1 : prm.diffusionRate ≤ 1)
    (hc0 : 0 ≤ prm.decayRate) (hc1 : prm.decayRate ≤ 1)
    (Mx : ℚ) (hM : 0 ≤ Mx) (field : List ℚ)
    (hf : ∀ j, 0 ≤ field.getD j 0 ∧ field.getD j 0 ≤ Mx) (n : ℕ) (i : ℕ) :
    0 ≤ ((stepNoActivity w h prm)^[n] field).getD i 0 ∧
      ((stepNoActivity w h prm)^[n] field).getD i 0 ≤ (1 - prm.decayRate) ^ n * Mx := by
  have aux : ∀ (n : ℕ) (Mx : ℚ), 0 ≤ Mx → ∀ field : List ℚ,
      (∀ j, 0 ≤ field.getD j 0 ∧ field.getD j 0 ≤ Mx) → ∀ i,
      0 ≤ ((stepNoActivity w h prm)^[n] field).getD i 0 ∧
        ((stepNoActivity w h prm)^[n] field).getD i 0 ≤ (1 - prm.decayRate) ^ n * Mx := by
    intro n
    induction n with
    | zero => intro Mx hM field hf i; simpa using hf i
    | succ n ih =>
      intro Mx hM field hf i
      have hM' : 0 ≤ (1 - prm.decayRate) * Mx := mul_nonneg (by linarith) hM
      have hstep := stepNoActivity_cell_bound w h prm hd0 hd1 hc0 hc1 Mx hM field hf
      have hrec := ih ((1 - prm.decayRate) * Mx) hM' (stepNoActivity w h prm field) hstep i
      rw [Function.iterate_succ_apply]
      refine ⟨hrec.1, ?_⟩
    -- reassociate the decay factors
      calc ((stepNoActivity w h prm)^[n] (stepNoActivity w h prm field)).getD i 0
          ≤ (1 - prm.decayRate) ^ n * ((1 - prm.decayRate) * Mx) := hrec.2
        _ = (1 - prm.decayRate) ^ (n + 1) * Mx := by ring
  exact aux n Mx hM field hf i

/-- Witness for `diffusion_sup_decay` on a concrete field. -/
theorem diffusion_sup_decay_witness :
    0 ≤ ((stepNoActivity 3 1 prm5w)^[2] field5).getD 0 0 ∧
      ((stepNoActivity 3 1 prm5w)^[2] field5).getD 0 0 ≤ (1 - prm5w.decayRate) ^ 2 * 1 :=
  diffusion_sup_decay 3 1 prm5w (by norm_num [prm5w, prm0]) (by norm_num [prm5w, prm0])
    (by norm_num [prm5w, prm0]) (by norm_num [prm5w, prm0]) 1 (by norm_num) field5
    (by
      intro j
      rcases j with _ | _ | _ | j <;>
        simp [field5, List.getD]) 2 0

/-! Membership and distinctness of the disk offset list. -/

theorem mem_intRange {a b k : ℤ} : k ∈ intRange a b ↔ a ≤ k ∧ k ≤ b := by
  rw [intRange]
  constructor
  · intro hk
    rcases List.mem_map.mp hk with ⟨j, hj, rfl⟩
    have hj' := List.mem_range.mp hj
    omega
  · intro ⟨h1, h2⟩
    refine List.mem_map.mpr ⟨(k - a).toNat, List.mem_range.mpr ?_, by omega⟩
    omega

theorem intRange_nodup (a b : ℤ) : (intRange a b).Nodup := by
  rw [intRange]
  refine (List.nodup_range _).map ?_
  intro j k hjk
  have : a + (j : ℤ) = a + (k : ℤ) := hjk
  omega

theorem mem_diskOffsets {radius : ℤ} {o : ℤ × ℤ} :
    o ∈ diskOffsets radius ↔
      -radius ≤ o.1 ∧ o.1 ≤ radius ∧ -radius ≤ o.2 ∧ o.2 ≤ radius ∧
        o.1 * o.1 + o.2 * o.2 ≤ radius * radius := by
  constructor
  · intro ho
    rcases List.mem_flatMap.mp ho with ⟨dy, hdy, hmem⟩
    rcases List.mem_map.mp hmem with ⟨dx, hdx, rfl⟩
    have h1 := List.mem_filter.mp hdx
    have h2 := mem_intRange.mp h1.1
    have h3 := mem_intRange.mp hdy
    have h4 := of_decide_eq_true h1.2
    exact ⟨h2.1, h2.2, h3.1, h3.2, h4⟩
  · intro ⟨h1, h2, h3, h4, h5⟩
    refine List.mem_flatMap.mpr ⟨o.2, mem_intRange.mpr ⟨h3, h4⟩, ?_⟩
    exact List.mem_map.mpr ⟨o.1, List.mem_filter.mpr
      ⟨mem_intRange.mpr ⟨h1, h2⟩, decide_eq_true h5⟩, rfl⟩

theorem diskOffsets_nodup (radius : ℤ) : (diskOffsets radius).Nodup := by
  have gen : ∀ (xs : List ℤ), xs.Nodup → ∀ (g : ℤ → List ℤ), (∀ x, (g x).Nodup) →
      (xs.flatMap (fun dy => (g dy).map (fun dx => ((dx, dy) : ℤ × ℤ)))).Nodup := by
    intro xs
    induction xs with
    | nil => intro _ g _; simp
    | cons y ys ih =>
      intro hys g hg
      rw [List.flatMap_cons, List.nodup_append]
      refine ⟨(hg y).map ?_, ih (List.nodup_cons.mp hys).2 g hg, ?_⟩
      · intro a b hab
        exact (Prod.mk.injEq _ _ _ _).mp hab |>.1
      · intro a ha hcontra
        rcases List.mem_map.mp ha with ⟨dx, _, rfl⟩
        rcases List.mem_flatMap.mp hcontra with ⟨dy, hdy, hmem⟩
        rcases List.mem_map.mp hmem with ⟨dx', _, heq⟩
        have h2 : dy = y := by
          have := (Prod.mk.injEq _ _ _ _).mp heq
          exact this.2
        exact (List.nodup_cons.mp hys).1 (h2 ▸ hdy)
  exact gen _ (intRange_nodup _ _) _ (fun dy => (intRange_nodup _ _).filter _)

theorem ratFloor_eq_floor (q : ℚ) : Rat.floor q = ⌊q⌋ := by
  rw [Rat.floor_def', Rat.floor_def]

theorem ratFloor_add_int (q : ℚ) (z : ℤ) : Rat.floor (q + (z : ℚ)) = Rat.floor q + z := by
  rw [ratFloor_eq_floor, ratFloor_eq_floor, Int.floor_add_int]

theorem rowcol_unique (w : ℕ) (a b c d : ℤ) (ha : 0 ≤ a) (haw : a < (w : ℤ))
    (hc : 0 ≤ c) (hcw : c < (w : ℤ)) (he : b * (w : ℤ) + a = d * (w : ℤ) + c) :
    a = c ∧ b = d := by
  have hw : 0 < (w : ℤ) := lt_of_le_of_lt ha haw
  rcases lt_trichotomy b d with hbd | hbd | hbd
  · exfalso
    have h1 : b + 1 ≤ d := hbd
    have h2 : (b + 1) * (w : ℤ) ≤ d * (w : ℤ) :=
      mul_le_mul_of_nonneg_right h1 (le_of_lt hw)
    nlinarith
  · constructor
    · rw [hbd] at he; linarith
    · exact hbd
  · exfalso
    have h1 : d + 1 ≤ b := hbd
    have h2 : (d + 1) * (w : ℤ) ≤ b * (w : ℤ) :=
      mul_le_mul_of_nonneg_right h1 (le_of_lt hw)
    nlinarith

theorem depositIdx_bounds (w h : ℕ) (x y : ℚ) (o : ℤ × ℤ)
    (hb : depositInBounds w h x y o) :
    0 ≤ depositIdx w x y o ∧ depositIdx w x y o < ((w * h : ℕ) : ℤ) := by
  obtain ⟨h1, h2, h3, h4⟩ := hb
  rw [depositIdx]
  constructor
  · positivity
  · push_cast
    nlinarith

theorem depositIdx_inj (w h : ℕ) (x y : ℚ) (o o' : ℤ × ℤ)
    (hb : depositInBounds w h x y o) (hb' : depositInBounds w h x y o')
    (he : depositIdx w x y o = depositIdx w x y o') : o = o' := by
  obtain ⟨h1, h2, h3, h4⟩ := hb
  obtain ⟨h1', h2', h3', h4'⟩ := hb'
  rw [depositIdx, depositIdx] at he
  have huniq := rowcol_unique w _ _ _ _ h1 h2 h1' h2' he
  have hx : o.1 = o'.1 := by
    have := huniq.1
    rw [ratFloor_add_int, ratFloor_add_int] at this
    omega
  have hy : o.2 = o'.2 := by
    have := huniq.2
    rw [ratFloor_add_int, ratFloor_add_int] at this
    omega
  exact Prod.ext hx hy

/-! Claim C2: total mass of one deposit. -/

theorem getD_set_ne (l : List ℚ) (i j : ℕ) (a : ℚ) (h : i ≠ j) :
    (l.set i a).getD j 0 = l.getD j 0 := by
  simp [List.getD, List.getElem?_set_ne h]

theorem sum_set_of_lt (l : List ℚ) (n : ℕ) (a : ℚ) (h : n < l.length) :
    (l.set n a).sum = l.sum - l.getD n 0 + a := by
  rw [List.sum_set', dif_pos h, List.getD_eq_getElem l 0 h]
  ring

theorem depositDisk_eq_offsets (w h : ℕ) (pSize rate x y : ℚ) (field : List ℚ) :
    depositDisk w h pSize rate x y field =
      (diskOffsets (max 1 (Rat.floor pSize))).foldl
        (depositCell w h (rate / ((max 1 (Rat.floor pSize) : ℤ) : ℚ) /
          ((max 1 (Rat.floor pSize) : ℤ) : ℚ)) x y) field := by
  rw [depositDisk, diskOffsets, foldl_flatMap]
  simp only [List.foldl_map, ← foldl_ite_filter, depositCell, div_div]

/-- Folding single-cell deposits over offsets with distinct, in-bounds,
non-clamping target cells adds exactly `count * v` to the total. -/
theorem deposit_fold_sum (w h : ℕ) (v x y : ℚ) :
    ∀ (os : List (ℤ × ℤ)) (f : List ℚ),
      (∀ o ∈ os, depositInBounds w h x y o) →
      ((os.map (fun o => depositIdx w x y o)).Nodup) →
      (∀ o ∈ os, f.getD (depositIdx w x y o).toNat 0 + v ≤ 1) →
      f.length = w * h →
      (os.foldl (depositCell w h v x y) f).sum = f.sum + (os.length : ℚ) * v := by
  have depositCell_eq : ∀ (f : List ℚ) (o : ℤ × ℤ), depositInBounds w h x y o →
      depositIdx w x y o < (f.length : ℤ) →
      f.getD (depositIdx w x y o).toNat 0 + v ≤ 1 →
      depositCell w h v x y f o =
        f.set (depositIdx w x y o).toNat (f.getD (depositIdx w x y o).toNat 0 + v) := by
    intro f o hb hflen hnc1
    obtain ⟨h1, h2, h3, h4⟩ := hb
    simp only [depositIdx] at hflen hnc1 ⊢
    simp only [depositCell]
    rw [if_pos ⟨h1, h2, h3, h4⟩,
      if_pos ⟨add_nonneg (mul_nonneg h3 (Int.ofNat_nonneg w)) h1, hflen⟩,
      min_eq_right hnc1]
  intro os
  induction os with
  | nil => intro f _ _ _ _; simp
  | cons o os ih =>
    intro f hin hnd hnc hlen
    have hb := hin o (List.mem_cons_self o os)
    have hbd := depositIdx_bounds w h x y o hb
    have hnat : (depositIdx w x y o).toNat < f.length := by
      rw [hlen]; omega
    have hflen : depositIdx w x y o < (f.length : ℤ) := by
      rw [hlen]; exact_mod_cast hbd.2
    have hcell := depositCell_eq f o hb hflen (hnc o (List.mem_cons_self o os))
    have hnd2 : ((depositIdx w x y o) ∉ os.map (fun o => depositIdx w x y o)) ∧
        (os.map (fun o => depositIdx w x y o)).Nodup := by
      rw [List.map_cons] at hnd
      exact List.nodup_cons.mp hnd
    have hne : ∀ o' ∈ os, (depositIdx w x y o').toNat ≠ (depositIdx w x y o).toNat := by
      intro o' ho' he
      have hbo' := depositIdx_bounds w h x y o' (hin o' (List.mem_cons_of_mem o ho'))
      have heq : depositIdx w x y o' = depositIdx w x y o := by omega
      exact hnd2.1 (heq ▸ List.mem_map_of_mem (fun o => depositIdx w x y o) ho')
    have hrec := ih (f.set (depositIdx w x y o).toNat (f.getD (depositIdx w x y o).toNat 0 + v))
      (fun o' ho' => hin o' (List.mem_cons_of_mem o ho'))
      hnd2.2
      (fun o' ho' => by
        rw [getD_set_ne _ _ _ _ (fun he => hne o' ho' he.symm)]
        exact hnc o' (List.mem_cons_of_mem o ho'))
      (by rw [List.length_set]; exact hlen)
    rw [List.foldl_cons, hcell, hrec, sum_set_of_lt _ _ _ hnat, List.length_cons]
    push_cast
    ring

set_option maxHeartbeats 4000000 in
/-- Claim C2 counterexample: one particle with `particleSize = 1` and
`chemicalDepositRate = 1/10` at `(2, 1)` on an all-zero 5×3 field (no
clamping, whole disk in bounds) adds `5 * (1/10) = 1/2` to the field, not
`chemicalDepositRate = 1/10`: the per-cell amount `rate / radius²` is
spread over the 5 cells of the radius-1 disk. -/
theorem deposit_total_counterexample :
    (depositDisk 5 3 prm2.particleSize prm2.chemicalDepositRate 2 1 field2).sum
        - field2.sum = 1 / 2 ∧
      (1 : ℚ) / 2 ≠ prm2.chemicalDepositRate := by
  constructor
  · rw [show prm2.particleSize = 1 from rfl, show prm2.chemicalDepositRate = 1 / 10 from rfl,
      depositDisk_eq_offsets,
      show max 1 (Rat.floor (1 : ℚ)) = 1 from by norm_num [Rat.floor_def'],
      show diskOffsets 1 = [(0, -1), (-1, 0), (0, 0), (1, 0), (0, 1)] from by decide]
    norm_num [depositCell, field2, Rat.floor_def', List.foldl, List.replicate, List.getD,
      show Int.toNat 2 = 2 from rfl, show Int.toNat 6 = 6 from rfl,
      show Int.toNat 7 = 7 from rfl, show Int.toNat 8 = 8 from rfl,
      show Int.toNat 12 = 12 from rfl]
  · norm_num [prm2, prm0]

/-- Claim C2 amended: the total field mass added by one particle's deposit
is `(number of cells of the disk dx² + dy² ≤ radius²) * chemicalDepositRate
/ radius²` (assuming no cell clamps at 1.0 and no cell falls outside the
grid) — for `radius = 1` that is `5 * rate`, and in general it exceeds
`chemicalDepositRate`, so the deposit is not mass-conserving. -/
theorem deposit_total_mass (w h : ℕ) (pSize rate x y : ℚ) (field : List ℚ)
    (hlen : field.length = w * h)
    (hin : ∀ o ∈ diskOffsets (max 1 (Rat.floor pSize)), depositInBounds w h x y o)
    (hnc : ∀ o ∈ diskOffsets (max 1 (Rat.floor pSize)),
      field.getD (depositIdx w x y o).toNat 0
        + rate / ((max 1 (Rat.floor pSize) : ℤ) : ℚ) / ((max 1 (Rat.floor pSize) : ℤ) : ℚ)
        ≤ 1) :
    (depositDisk w h pSize rate x y field).sum =
      field.sum + ((diskOffsets (max 1 (Rat.floor pSize))).length : ℚ) *
        (rate / ((max 1 (Rat.floor pSize) : ℤ) : ℚ) / ((max 1 (Rat.floor pSize) : ℤ) : ℚ)) := by
  rw [depositDisk_eq_offsets]
  exact deposit_fold_sum w h _ x y _ field hin
    ((diskOffsets_nodup _).map_on
      (fun o ho o' ho' he => depositIdx_inj w h x y o o' (hin o ho) (hin o' ho') he))
    hnc hlen

/-- Witness for `deposit_total_mass` at the concrete C2 configuration. -/
theorem deposit_total_mass_witness :
    (depositDisk 5 3 prm2.particleSize prm2.chemicalDepositRate 2 1 field2).sum =
      field2.sum + ((diskOffsets (max 1 (Rat.floor prm2.particleSize))).length : ℚ) *
        (prm2.chemicalDepositRate / ((max 1 (Rat.floor prm2.particleSize) : ℤ) : ℚ) /
          ((max 1 (Rat.floor prm2.particleSize) : ℤ) : ℚ)) :=
  deposit_total_mass 5 3 prm2.particleSize prm2.chemicalDepositRate 2 1 field2
    (by norm_num [field2])
    (by
      rw [show max 1 (Rat.floor prm2.particleSize) = 1 by
          norm_num [prm2, prm0, Rat.floor_def'],
        show diskOffsets 1 = [(0, -1), (-1, 0), (0, 0), (1, 0), (0, 1)] from by decide]
      intro o ho
      fin_cases ho <;> norm_num [depositInBounds, Rat.floor_def'])
    (by
      rw [show max 1 (Rat.floor prm2.particleSize) = 1 by
          norm_num [prm2, prm0, Rat.floor_def'],
        show diskOffsets 1 = [(0, -1), (-1, 0), (0, 0), (1, 0), (0, 1)] from by decide]
      intro o ho
      fin_cases ho <;>
        norm_num [depositIdx, field2, prm2, prm0, Rat.floor_def', List.replicate, List.getD,
          show Int.toNat 2 = 2 from rfl, show Int.toNat 6 = 6 from rfl,
          show Int.toNat 7 = 7 from rfl, show Int.toNat 8 = 8 from rfl,
          show Int.toNat 12 = 12 from rfl])

/-! Claim C3: the per-cell diffusion formula. -/

theorem jsModZ_of_nonneg (a b : ℤ) (ha : 0 ≤ a) : jsModZ a b = a % b := by
  rw [jsModZ, if_pos ha]

theorem blur_fold_eq_offsets (g : List ℚ) (w h : ℕ) (radius : ℤ) (x y : ℤ) (sc0 : ℚ × ℕ) :
    (intRange (-radius) radius).foldl (fun sc dy =>
      (intRange (-radius) radius).foldl (fun sc dx =>
        if dx * dx + dy * dy ≤ radius * radius then
          let nx := jsModZ (x + dx + (w : ℤ)) (w : ℤ)
          let ny := jsModZ (y + dy + (h : ℤ)) (h : ℤ)
          let nidx := ny * (w : ℤ) + nx
          if 0 ≤ nidx ∧ nidx < (g.length : ℤ) then
            (sc.1 + g.getD nidx.toNat 0, sc.2 + 1)
          else sc
        else sc) sc) sc0 =
      (diskOffsets radius).foldl (fun sc o =>
        if 0 ≤ wrapIdx w h x y o ∧ wrapIdx w h x y o < (g.length : ℤ) then
          (sc.1 + g.getD (wrapIdx w h x y o).toNat 0, sc.2 + 1)
        else sc) sc0 := by
  rw [diskOffsets, foldl_flatMap]
  simp only [List.foldl_map, ← foldl_ite_filter, wrapIdx]

theorem foldl_sum_count {β : Type} (v : β → ℚ) (c : β → Prop) [DecidablePred c] :
    ∀ (l : List β), (∀ b ∈ l, c b) → ∀ sc : ℚ × ℕ,
      l.foldl (fun sc b => if c b then (sc.1 + v b, sc.2 + 1) else sc) sc =
        (sc.1 + (l.map v).sum, sc.2 + l.length) := by
  intro l
  induction l with
  | nil => intro _ sc; simp
  | cons b l ih =>
    intro hall sc
    rw [List.foldl_cons, if_pos (hall b (List.mem_cons_self b l)),
      ih (fun b' hb' => hall b' (List.mem_cons_of_mem b hb')) _,
      List.map_cons, List.sum_cons, List.length_cons]
    refine Prod.ext ?_ ?_
    · show sc.1 + v b + (l.map v).sum = sc.1 + (v b + (l.map v).sum)
      ring
    · show sc.2 + 1 + l.length = sc.2 + (l.length + 1)
      omega

theorem wrapIdx_in_bounds (w h : ℕ) (hw : 0 < w) (hh : 0 < h) (radius : ℤ)
    (hrw : radius ≤ (w : ℤ)) (hrh : radius ≤ (h : ℤ)) (x y : ℤ)
    (hx : 0 ≤ x) (hy : 0 ≤ y) (o : ℤ × ℤ) (ho : o ∈ diskOffsets radius) :
    0 ≤ wrapIdx w h x y o ∧ wrapIdx w h x y o < ((w * h : ℕ) : ℤ) := by
  obtain ⟨h1, h2, h3, h4, _⟩ := mem_diskOffsets.mp ho
  have hwz : (0 : ℤ) < (w : ℤ) := by exact_mod_cast hw
  have hhz : (0 : ℤ) < (h : ℤ) := by exact_mod_cast hh
  have hax : 0 ≤ x + o.1 + (w : ℤ) := by omega
  have hay : 0 ≤ y + o.2 + (h : ℤ) := by omega
  rw [wrapIdx, jsModZ_of_nonneg _ _ hax, jsModZ_of_nonneg _ _ hay]
  have hnx0 := Int.emod_nonneg (x + o.1 + (w : ℤ)) (ne_of_gt hwz)
  have hnx1 := Int.emod_lt_of_pos (x + o.1 + (w : ℤ)) hwz
  have hny0 := Int.emod_nonneg (y + o.2 + (h : ℤ)) (ne_of_gt hhz)
  have hny1 := Int.emod_lt_of_pos (y + o.2 + (h : ℤ)) hhz
  constructor
  · exact add_nonneg (mul_nonneg hny0 (le_of_lt hwz)) hnx0
  · push_cast
    nlinarith

theorem zero_zero_mem_diskOffsets (radius : ℤ) (hr : 1 ≤ radius) :
    ((0, 0) : ℤ × ℤ) ∈ diskOffsets radius := by
  refine mem_diskOffsets.mpr ⟨by omega, by omega, by omega, by omega, ?_⟩
  show (0 : ℤ) * 0 + 0 * 0 ≤ radius * radius
  nlinarith

theorem stampFood_length (w h : ℕ) (s : ℚ) (f : List ℚ) (foods : List Food) :
    (stampFood w h s f foods).length = f.length := by
  rw [stampFood]
  refine foldl_preserve (fun g : List ℚ => g.length = f.length) _ ?_ foods f rfl
  intro g food hg
  refine foldl_preserve (fun g2 : List ℚ => g2.length = f.length) _ ?_ _ g hg
  intro g2 dy hg2
  refine foldl_preserve (fun g3 : List ℚ => g3.length = f.length) _ ?_ _ g2 hg2
  intro g3 dx hg3
  simp only []
  split_ifs <;> simp [List.length_set, hg3]

set_option maxHeartbeats 1000000 in
/-- Claim C3 amended: each cell of the diffusion pass equals
`((disk mean) * diffusionRate + self * (1 - diffusionRate)) * (1 -
decayRate)`, where the neighborhood is the toroidally-wrapped disk
`dx² + dy² ≤ radius²` — which at radius 1 is the 5-cell von Neumann plus
including the cell itself, not the 8-neighbor Moore ring — and both the
neighborhood samples and the self term read the post-injection field (food
sources are stamped into the live field before the blur).  The pass writes
into a fresh buffer: the right-hand side reads only the stamped input
field, never a cell updated in the same pass. -/
theorem diffusion_cell_formula (w h : ℕ) (prm : Params) (field : List ℚ) (foods : List Food)
    (hw : 0 < w) (hh : 0 < h)
    (hrw : max 1 (Rat.floor prm.particleSize) ≤ (w : ℤ))
    (hrh : max 1 (Rat.floor prm.particleSize) ≤ (h : ℤ))
    (hlen : field.length = w * h) (idx : ℕ) (hidx : idx < w * h) :
    (diffuseChemicals w h prm field foods).getD idx 0 =
      specDiffusedValue prm.diffusionRate prm.decayRate
        ((stampFood w h prm.particleSize field foods).getD idx 0)
        ((diskOffsets (max 1 (Rat.floor prm.particleSize))).map
          (fun o => (stampFood w h prm.particleSize field foods).getD
            (wrapIdx w h ((idx % w : ℕ) : ℤ) ((idx / w : ℕ) : ℤ) o).toNat 0)) := by
  have hglen : (stampFood w h prm.particleSize field foods).length = w * h := by
    rw [stampFood_length, hlen]
  have hinb : ∀ o ∈ diskOffsets (max 1 (Rat.floor prm.particleSize)),
      0 ≤ wrapIdx w h ((idx % w : ℕ) : ℤ) ((idx / w : ℕ) : ℤ) o ∧
        wrapIdx w h ((idx % w : ℕ) : ℤ) ((idx / w : ℕ) : ℤ) o <
          ((stampFood w h prm.particleSize field foods).length : ℤ) := by
    intro o ho
    rw [hglen]
    exact_mod_cast wrapIdx_in_bounds w h hw hh _ hrw hrh _ _
      (Int.ofNat_nonneg _) (Int.ofNat_nonneg _) o ho
  have hpos : 0 < (diskOffsets (max 1 (Rat.floor prm.particleSize))).length :=
    List.length_pos_of_mem (zero_zero_mem_diskOffsets _ (le_max_left 1 _))
  rw [diffuseChemicals, getD_map_range, if_pos hidx]
  simp only []
  rw [blur_fold_eq_offsets (stampFood w h prm.particleSize field foods) w h
    (max 1 (Rat.floor prm.particleSize)) ((idx % w : ℕ) : ℤ) ((idx / w : ℕ) : ℤ) ((0 : ℚ), (0 : ℕ))]
  rw [foldl_sum_count _ _ _ hinb ((0 : ℚ), (0 : ℕ))]
  rw [if_pos (by simpa using hpos)]
  rw [specDiffusedValue]
  simp [List.length_map]

set_option maxHeartbeats 2000000 in
/-- Claim C3 counterexample, two parts.  First, the self term is the
post-injection value: on a 1×1 field starting at 0 with one food source of
strength 7/10 and `diffusionRate = decayRate = 0`, the pass yields 7/10,
while the claim's formula (self = pre-injection value 0) yields 0.
Second, the radius-1 neighborhood is the 5-cell plus including the
center, not the 8-neighbor Moore ring: on a 3×3 field with a single unit
cell north of the center, `diffusionRate = 1`, `decayRate = 0`, the center
becomes 1/5, while the claim's Moore-ring mean yields 1/8. -/
theorem diffusion_formula_counterexample :
    ((diffuseChemicals 1 1 prm3a [0] [food3]).getD 0 0 = 7 / 10 ∧
      specDiffusedValue prm3a.diffusionRate prm3a.decayRate 0 (List.replicate 8 0) = 0 ∧
      (7 : ℚ) / 10 ≠ 0) ∧
    ((diffuseChemicals 3 3 prm3b field3 []).getD 4 0 = 1 / 5 ∧
      specDiffusedValue prm3b.diffusionRate prm3b.decayRate (field3.getD 4 0)
        [field3.getD 0 0, field3.getD 1 0, field3.getD 2 0, field3.getD 3 0,
         field3.getD 5 0, field3.getD 6 0, field3.getD 7 0, field3.getD 8 0] = 1 / 8 ∧
      (1 : ℚ) / 5 ≠ 1 / 8) := by
  refine ⟨⟨?_, ?_, by norm_num⟩, ⟨?_, ?_, by norm_num⟩⟩
  · rw [diffuseChemicals, getD_map_range]
    norm_num [stampFood, food3, prm3a, prm0, intRange_neg_one_one, jsModZ, Rat.floor_def',
      List.foldl, List.getD, show Int.toNat 0 = 0 from rfl]
  · norm_num [specDiffusedValue, List.replicate]
  · rw [diffuseChemicals, getD_map_range,
      show stampFood 3 3 prm3b.particleSize field3 [] = field3 from rfl]
    norm_num [field3, prm3b, prm0, intRange_neg_one_one, jsModZ, Rat.floor_def',
      List.foldl, List.getD, show Int.toNat 1 = 1 from rfl, show Int.toNat 3 = 3 from rfl,
      show Int.toNat 4 = 4 from rfl, show Int.toNat 5 = 5 from rfl,
      show Int.toNat 7 = 7 from rfl]
  · norm_num [specDiffusedValue, field3, prm3b, prm0, List.getD]

/-- Witness for `diffusion_cell_formula` at the concrete 3×3
configuration. -/
theorem diffusion_cell_formula_witness :
    (diffuseChemicals 3 3 prm3b field3 []).getD 4 0 =
      specDiffusedValue prm3b.diffusionRate prm3b.decayRate
        ((stampFood 3 3 prm3b.particleSize field3 []).getD 4 0)
        ((diskOffsets (max 1 (Rat.floor prm3b.particleSize))).map
          (fun o => (stampFood 3 3 prm3b.particleSize field3 []).getD
            (wrapIdx 3 3 ((4 % 3 : ℕ) : ℤ) ((4 / 3 : ℕ) : ℤ) o).toNat 0)) :=
  diffusion_cell_formula 3 3 prm3b field3 [] (by norm_num) (by norm_num)
    (by norm_num [prm3b, prm0, Rat.floor_def'])
    (by norm_num [prm3b, prm0, Rat.floor_def'])
    (by norm_num [field3]) 4 (by norm_num)

/-! Claim C6: what the sticking-candidate detection depends on. -/

theorem foldl_rel {α β : Type} (R : α → α → Prop) (f g : α → β → α)
    (hfg : ∀ a b x, R a b → R (f a x) (g b x)) :
    ∀ (l : List β) (a b : α), R a b → R (l.foldl f a) (l.foldl g b) := by
  intro l
  induction l with
  | nil => intro a b hab; exact hab
  | cons x xs ih => intro a b hab; exact ih (f a x) (g b x) (hfg a b x hab)

/-- The neighbor visit changes the candidate flag exactly when the visited
particle is stuck within `3 * particleSize`; the perception-radius branch
never touches the flag. -/
theorem scanOther_hasNearbyStuck_eq (M : MathFns) (prm : Params) (p o : Particle)
    (acc : FlockAcc) :
    (scanOther M prm p o acc).hasNearbyStuck =
      (if o.isStuck = true ∧
          M.sqrt ((o.x - p.x) * (o.x - p.x) + (o.y - p.y) * (o.y - p.y)) <
            prm.particleSize * 3
        then true else acc.hasNearbyStuck) := by
  simp only [scanOther]
  split_ifs <;> simp_all

/-- Claim C6 amended: the sticking-candidate detection is independent of
everything in the parameter record except `particleSize` (the `3 *
particleSize` distance test) and the scan window `ceil (perceptionRadius /
gridSize)`: two parameter records with equal `particleSize` and equal
window radius detect identically.  (Via the counterexample, two records
differing only in `perceptionRadius` can produce different windows and
hence different detection, so full perception-radius independence fails.) -/
theorem sticking_candidate_window_congruence (M : MathFns) (pA pB : Params)
    (hwin : Rat.ceil (pA.perceptionRadius / gridSize) =
      Rat.ceil (pB.perceptionRadius / gridSize))
    (hsize : pA.particleSize = pB.particleSize) (ps0 ps : List Particle) (i : ℕ) :
    stickingCandidate M pA ps0 ps i = stickingCandidate M pB ps0 ps i := by
  simp only [stickingCandidate, flockScan]
  rw [← hwin]
  refine foldl_rel (fun a b : FlockAcc => a.hasNearbyStuck = b.hasNearbyStuck) _ _ ?_ _ _ _ rfl
  intro a b dy hab
  refine foldl_rel (fun a b : FlockAcc => a.hasNearbyStuck = b.hasNearbyStuck) _ _ ?_ _ a b hab
  intro a1 b1 dx hab1
  refine foldl_rel (fun a b : FlockAcc => a.hasNearbyStuck = b.hasNearbyStuck) _ _ ?_ _ a1 b1 hab1
  intro a2 b2 j hab2
  by_cases hj : j = i
  · simp only [if_pos hj]; exact hab2
  · simp only [if_neg hj]
    rw [scanOther_hasNearbyStuck_eq, scanOther_hasNearbyStuck_eq, hsize, hab2]

/-- Witness for `sticking_candidate_window_congruence`: perception radii 1
and 9 share the one-cell window and detect identically. -/
theorem sticking_candidate_window_congruence_witness :
    stickingCandidate M0 prm6a ps6 ps6 0 = stickingCandidate M0 prm6c ps6 ps6 0 :=
  sticking_candidate_window_congruence M0 prm6a prm6c
    (by norm_num [prm6a, prm6c, prm0, gridSize, Rat.ceil])
    (by norm_num [prm6a, prm6c, prm0]) ps6 ps6 0

set_option maxHeartbeats 4000000 in
/-- Claim C6 counterexample: `prm6b` differs from `prm6a` only in
`perceptionRadius` (1 versus 11); the stuck neighbor at distance 20 lies
within `3 * particleSize = 30`, yet with `perceptionRadius = 1` the scan
window is one grid cell and the neighbor's cell is never visited
(no candidate), while with `perceptionRadius = 11` it is visited
(candidate found): detection is not independent of `perceptionRadius`. -/
theorem sticking_depends_on_perception_radius :
    prm6b = { prm6a with perceptionRadius := 11 } ∧
    (ps6.getD 1 default).isStuck = true ∧
    M0.sqrt (((ps6.getD 1 default).x - (ps6.getD 0 default).x) *
        ((ps6.getD 1 default).x - (ps6.getD 0 default).x) +
      ((ps6.getD 1 default).y - (ps6.getD 0 default).y) *
        ((ps6.getD 1 default).y - (ps6.getD 0 default).y)) < prm6a.particleSize * 3 ∧
    stickingCandidate M0 prm6a ps6 ps6 0 = false ∧
    stickingCandidate M0 prm6b ps6 ps6 0 = true := by
  refine ⟨rfl, rfl, ?_, ?_, ?_⟩
  · norm_num [ps6, M0, prm6a, prm0, List.getD]
  · norm_num [stickingCandidate, flockScan, scanOther, bucket, gridCell, gridSize, FlockAcc.zero,
      ps6, prm6a, prm0, M0, Rat.ceil, Rat.floor_def', intRange_neg_one_one,
      List.foldl, List.filter, List.range_succ, List.getD]
  · norm_num [stickingCandidate, flockScan, scanOther, bucket, gridCell, gridSize, FlockAcc.zero,
      ps6, prm6b, prm6a, prm0, M0, Rat.ceil, Rat.floor_def',
      show intRange (-2) 2 = [-2, -1, 0, 1, 2] from by decide,
      List.foldl, List.filter, List.range_succ, List.getD]

/-! Claim C7: count reconciliation. -/

theorem removal_fold_saturated (t : ℕ) :
    ∀ (l : List ℕ) (acc : List Particle × ℕ), t ≤ acc.2 →
      l.foldl (fun acc idx => if t ≤ acc.2 then acc else (acc.1.eraseIdx idx, acc.2 + 1)) acc
        = acc := by
  intro l
  induction l with
  | nil => intro acc _; rfl
  | cons j l ih =>
    intro acc hacc
    rw [List.foldl_cons, if_pos hacc]
    exact ih acc hacc

theorem mem_nonStuckIndices (ps : List Particle) (j : ℕ) :
    j ∈ nonStuckIndices ps ↔ j < ps.length ∧ (ps.getD j default).isStuck = false := by
  rw [nonStuckIndices, List.mem_reverse, List.mem_filter, List.mem_range]
  simp

theorem nonStuckIndices_head_max (ps : List Particle) (jm : ℕ) (rest : List ℕ)
    (h : nonStuckIndices ps = jm :: rest) : ∀ j ∈ nonStuckIndices ps, j ≤ jm := by
  have hpair : (nonStuckIndices ps).Pairwise (· > ·) := by
    rw [nonStuckIndices, List.pairwise_reverse]
    exact (List.pairwise_lt_range ps.length).sublist
      (List.filter_sublist (List.range ps.length))
  rw [h] at hpair
  have hrest := (List.pairwise_cons.mp hpair).1
  intro j hj
  rw [h, List.mem_cons] at hj
  rcases hj with rfl | hj
  · exact le_refl j
  · exact le_of_lt (hrest j hj)

/-- Claim C7: reconciling the parameter record from `n` particles down to
`n - 1` removes exactly one particle, a non-stuck one, namely the one at
the largest non-stuck index (the tail of the non-stuck subset) — every
particle past that index is stuck; and reconciling to 0 when all `n`
particles are stuck removes the stuck particles as a last resort, leaving
exactly zero particles.  (The surviving particles then pass through the
speed-rescale map, which leaves stuck particles untouched.) -/
theorem count_reconciliation (M : MathFns) (e : Engine) (newParams : Params) (rng : RNG)
    (hn : e.params.particleCount = e.particles.length) :
    (newParams.particleCount + 1 = e.particles.length →
      (∃ p ∈ e.particles, p.isStuck = false) →
      (updateParams M e newParams rng).1.particles =
        (e.particles.eraseIdx ((nonStuckIndices e.particles).headD 0)).map
          (rescaleParticle M newParams.moveSpeed) ∧
      (updateParams M e newParams rng).1.particles.length + 1 = e.particles.length ∧
      (e.particles.getD ((nonStuckIndices e.particles).headD 0) default).isStuck = false ∧
      (∀ j, (nonStuckIndices e.particles).headD 0 < j → j < e.particles.length →
        (e.particles.getD j default).isStuck = true)) ∧
    (newParams.particleCount = 0 → (∀ p ∈ e.particles, p.isStuck = true) →
      (updateParams M e newParams rng).1.particles = []) := by
  constructor
  · intro hcount hex
    -- the non-stuck index list is nonempty
    have hne : nonStuckIndices e.particles ≠ [] := by
      intro hnil
      rcases hex with ⟨p, hp, hps⟩
      rcases List.mem_iff_getElem.mp hp with ⟨j, hj, rfl⟩
      have : j ∈ nonStuckIndices e.particles := by
        rw [mem_nonStuckIndices]
        exact ⟨hj, by rw [List.getD_eq_getElem _ _ hj]; exact hps⟩
      rw [hnil] at this
      exact List.not_mem_nil j this
    rcases List.exists_cons_of_ne_nil hne with ⟨jm, rest, hrev⟩
    have hjm : jm < e.particles.length ∧ (e.particles.getD jm default).isStuck = false :=
      (mem_nonStuckIndices e.particles jm).mp (by rw [hrev]; exact List.mem_cons_self jm rest)
    have hmax := nonStuckIndices_head_max e.particles jm rest hrev
    -- the removal step
    have hrm : removeParticles e.particles 1 = e.particles.eraseIdx jm := by
      rw [removeParticles]
      rw [hrev]
      simp only [List.foldl_cons]
      rw [show (if (1 : ℕ) ≤ (e.particles, (0 : ℕ)).2 then (e.particles, (0 : ℕ))
          else ((e.particles, (0 : ℕ)).1.eraseIdx jm, (e.particles, (0 : ℕ)).2 + 1))
          = (e.particles.eraseIdx jm, (1 : ℕ)) from by norm_num]
      rw [removal_fold_saturated 1 rest (e.particles.eraseIdx jm, 1) (by norm_num)]
      norm_num
    -- unfold updateParams in the removal branch
    have hupd : (updateParams M e newParams rng).1.particles =
        (removeParticles e.particles 1).map (rescaleParticle M newParams.moveSpeed) := by
      rw [updateParams]
      simp only []
      rw [if_neg (by omega), if_pos (by omega : newParams.particleCount < e.params.particleCount)]
      have h1 : e.params.particleCount - newParams.particleCount = 1 := by omega
      rw [h1]
    have hhead : (nonStuckIndices e.particles).headD 0 = jm := by
      rw [hrev]; rfl
    refine ⟨by rw [hupd, hrm, hhead], ?_, by rw [hhead]; exact hjm.2, ?_⟩
    · rw [hupd, hrm, List.length_map, List.length_eraseIdx_of_lt hjm.1]
      omega
    · intro j hjmj hjlen
      by_contra hcontra
      have : j ∈ nonStuckIndices e.particles := by
        rw [mem_nonStuckIndices]
        refine ⟨hjlen, ?_⟩
        cases hb : (e.particles.getD j default).isStuck
        · rfl
        · exact absurd hb (by rw [hhead] at hjmj; exact fun hb => hcontra hb)
      have := hmax j this
      rw [hhead] at hjmj
      omega
  · intro hzero hall
    have hnil : nonStuckIndices e.particles = [] := by
      rw [nonStuckIndices]
      rw [List.filter_eq_nil_iff.mpr ?_]
      · rfl
      · intro j hj
        have hjlen := List.mem_range.mp hj
        simp only [Bool.not_eq_true', Bool.not_eq_false]
        exact hall _ (List.getD_eq_getElem _ _ hjlen ▸ List.getElem_mem hjlen)
    rcases Nat.eq_zero_or_pos e.particles.length with hlen0 | hlenpos
    · have hempty : e.particles = [] := List.eq_nil_of_length_eq_zero hlen0
      rw [updateParams]
      simp only []
      rw [if_neg (by omega), if_neg (by omega)]
      rw [hempty]
      rfl
    · rw [updateParams]
      simp only []
      rw [if_neg (by omega), if_pos (by omega : newParams.particleCount < e.params.particleCount)]
      rw [removeParticles, hnil]
      simp only [List.foldl_nil]
      rw [if_pos (by omega : (0 : ℕ) < e.params.particleCount - newParams.particleCount)]
      have : e.particles.length - (e.params.particleCount - newParams.particleCount - 0) = 0 := by
        omega
      rw [this, List.take_zero, List.map_nil]

/-- Witness for `count_reconciliation`: three particles with the stuck one
in the middle; reconciling to two removes the trailing non-stuck particle
only. -/
theorem count_reconciliation_witness :
    (updateParams M0 e7 prm7 rng0).1.particles =
      (e7.particles.eraseIdx ((nonStuckIndices e7.particles).headD 0)).map
        (rescaleParticle M0 prm7.moveSpeed) ∧
    (updateParams M0 e7 prm7 rng0).1.particles.length + 1 = e7.particles.length ∧
    (e7.particles.getD ((nonStuckIndices e7.particles).headD 0) default).isStuck = false ∧
    (∀ j, (nonStuckIndices e7.particles).headD 0 < j → j < e7.particles.length →
      (e7.particles.getD j default).isStuck = true) :=
  (count_reconciliation M0 e7 prm7 rng0 rfl).1 rfl
    ⟨p7, List.mem_cons_self p7 [stickyP, p7], rfl⟩

/-! Claim C4: the stuck-particle invariant. -/

theorem getD_set_ne_gen {α : Type} (l : List α) (i j : ℕ) (a d : α) (h : i ≠ j) :
    (l.set i a).getD j d = l.getD j d := by
  simp [List.getD, List.getElem?_set_ne h]

theorem spawnOne_not_stuck (M : MathFns) (w h : ℕ) (prm : Params) (rng : RNG) :
    (spawnOne M w h prm rng).1.isStuck = false :=
  rfl

theorem initializeParticles_not_stuck (M : MathFns) (w h : ℕ) (prm : Params) (rng : RNG) :
    ∀ p ∈ (initializeParticles M w h prm rng).1, p.isStuck = false := by
  rw [initializeParticles]
  refine foldl_preserve (fun acc : List Particle × RNG => ∀ p ∈ acc.1, p.isStuck = false)
    _ ?_ _ _ (by intro p hp; exact absurd hp (List.not_mem_nil p))
  intro acc k hacc
  intro p hp
  rcases List.mem_append.mp hp with hold | hnew
  · exact hacc p hold
  · rw [List.mem_singleton.mp hnew]
    exact spawnOne_not_stuck M w h prm acc.2

theorem forcesRest_fst (M : MathFns) (w h : ℕ) (prm : Params) (field : List ℚ)
    (p : Particle) (acc : FlockAcc) (rng : RNG) (hns : p.isStuck = false) :
    (forcesRest M w h prm field p acc rng).1 = false := by
  rw [forcesRest]
  simp only [hns, Bool.false_eq_true, if_false]

theorem calculateForces_stuck_cases (M : MathFns) (w h : ℕ) (prm : Params) (field : List ℚ)
    (ps0 ps : List Particle) (i : ℕ) (rng : RNG)
    (hns : (ps.getD i default).isStuck = false) :
    (calculateForces M w h prm field ps0 ps i rng).1 = false ∨
    ((calculateForces M w h prm field ps0 ps i rng).1 = true ∧
      (calculateForces M w h prm field ps0 ps i rng).2.1 = 0 ∧
      (calculateForces M w h prm field ps0 ps i rng).2.2.1 = 0) := by
  simp only [calculateForces, RNG.next, hns, Bool.false_eq_true, if_false]
  split_ifs with h2 h3
  · exact Or.inr ⟨rfl, rfl, rfl⟩
  · exact Or.inl (forcesRest_fst M w h prm field _ _ _ hns)
  · exact Or.inl (forcesRest_fst M w h prm field _ _ _ hns)

theorem updateParticle_preserves_inv (M : MathFns) (w h : ℕ) (prm : Params)
    (ps0 : List Particle) (st : List Particle × List ℚ × RNG) (i : ℕ)
    (hinv : ∀ p ∈ st.1, p.isStuck = true → p.vx = 0 ∧ p.vy = 0) :
    ∀ p ∈ (updateParticle M w h prm ps0 st i).1, p.isStuck = true → p.vx = 0 ∧ p.vy = 0 := by
  obtain ⟨ps, field, rng⟩ := st
  rw [updateParticle]
  by_cases hstuck : (ps.getD i default).isStuck = true
  · simp only [hstuck]
    simpa using hinv
  · have hns : (ps.getD i default).isStuck = false := by
      cases hb : (ps.getD i default).isStuck
      · rfl
      · exact absurd hb hstuck
    simp only [hns]
    simp only [Bool.false_eq_true, if_false]
    intro p hp hpstuck
    rcases List.mem_or_eq_of_mem_set hp with hold | hnew
    · exact hinv p hold hpstuck
    · rcases calculateForces_stuck_cases M w h prm field ps0 ps i rng hns with hc | hc
      · rw [hnew] at hpstuck
        simp only [] at hpstuck
        rw [hc] at hpstuck
        exact absurd hpstuck (by norm_num)
      · rw [hnew]
        exact ⟨hc.2.1, hc.2.2⟩

theorem fold_updateParticle_getD (M : MathFns) (w h : ℕ) (prm : Params)
    (ps0 : List Particle) (i : ℕ) :
    ∀ (js : List ℕ) (st : List Particle × List ℚ × RNG),
      (st.1.getD i default).isStuck = true →
      ((js.foldl (updateParticle M w h prm ps0) st).1.getD i default) =
        st.1.getD i default := by
  intro js
  induction js with
  | nil => intro st _; rfl
  | cons j js ih =>
    intro st hstuck
    rw [List.foldl_cons]
    obtain ⟨ps, field, rng⟩ := st
    by_cases hj : (ps.getD j default).isStuck = true
    · have hid : updateParticle M w h prm ps0 (ps, field, rng) j = (ps, field, rng) := by
        rw [updateParticle]
        simp only [hj]
        simp
      rw [hid]
      exact ih (ps, field, rng) hstuck
    · have hji : j ≠ i := by
        intro he
        rw [he] at hj
        exact hj hstuck
      have hset : (updateParticle M w h prm ps0 (ps, field, rng) j).1.getD i default =
          ps.getD i default := by
        rw [updateParticle]
        by_cases hb : (ps.getD j default).isStuck = true
        · exact absurd hb hj
        · have hns : (ps.getD j default).isStuck = false := by
            cases hx : (ps.getD j default).isStuck
            · rfl
            · exact absurd hx hj
          simp only [hns, Bool.false_eq_true, if_false]
          exact getD_set_ne_gen ps j i _ default hji
      have hstuck' : ((updateParticle M w h prm ps0 (ps, field, rng) j).1.getD i default).isStuck
          = true := by
        rw [hset]
        exact hstuck
      rw [ih _ hstuck', hset]

theorem rescaleParticle_isStuck (M : MathFns) (s : ℚ) (p : Particle) :
    (rescaleParticle M s p).isStuck = p.isStuck := by
  rw [rescaleParticle]
  by_cases h : p.isStuck = true
  · rw [if_pos h]
  · rw [if_neg h]
    simp only []
    by_cases h2 : 0 < M.sqrt (p.vx * p.vx + p.vy * p.vy)
    · rw [if_pos h2]
    · rw [if_neg h2]

theorem rescaleParticle_of_stuck (M : MathFns) (s : ℚ) (p : Particle)
    (h : p.isStuck = true) : rescaleParticle M s p = p := by
  rw [rescaleParticle, if_pos h]

theorem removeParticles_sublist (ps : List Particle) (t : ℕ) :
    (removeParticles ps t).Sublist ps := by
  rw [removeParticles]
  have hfold : ((nonStuckIndices ps).foldl
      (fun acc idx => if t ≤ acc.2 then acc else (acc.1.eraseIdx idx, acc.2 + 1))
      (ps, 0)).1.Sublist ps := by
    refine foldl_preserve (fun acc : List Particle × ℕ => acc.1.Sublist ps) _ ?_ _ _
      (List.Sublist.refl ps)
    intro acc idx hacc
    split_ifs
    · exact hacc
    · exact (List.eraseIdx_sublist acc.1 idx).trans hacc
  split_ifs
  · exact (List.take_sublist _ _).trans hfold
  · exact hfold

/-- Every particle surviving `updateParams` is the speed-rescale of either
a particle of the old list or a freshly spawned (non-stuck) one. -/
theorem updateParams_particles_mem (M : MathFns) (e : Engine) (newParams : Params)
    (rng : RNG) :
    ∀ q ∈ (updateParams M e newParams rng).1.particles,
      ∃ p, (p ∈ e.particles ∨ p.isStuck = false) ∧
        q = rescaleParticle M newParams.moveSpeed p := by
  intro q hq
  rw [updateParams] at hq
  rcases List.mem_map.mp hq with ⟨p, hp, rfl⟩
  refine ⟨p, ?_, rfl⟩
  by_cases hA : e.params.particleCount < newParams.particleCount
  · rw [if_pos hA] at hp
    exact foldl_preserve
      (fun acc : List Particle × RNG => ∀ p' ∈ acc.1, p' ∈ e.particles ∨ p'.isStuck = false)
      _
      (fun acc k hacc p' hp' => by
        rcases List.mem_append.mp hp' with hold | hnew
        · exact hacc p' hold
        · rw [List.mem_singleton.mp hnew]
          exact Or.inr rfl)
      _ _ (fun p' hp' => Or.inl hp') p hp
  · rw [if_neg hA] at hp
    by_cases hB : newParams.particleCount < e.params.particleCount
    · rw [if_pos hB] at hp
      exact Or.inl ((removeParticles_sublist e.particles _).subset hp)
    · rw [if_neg hB] at hp
      exact Or.inl hp

/-- The speed-rescale pass and the count reconciliation of `updateParams`
preserve the stuck-velocity invariant. -/
theorem updateParams_preserves_inv (M : MathFns) (e : Engine) (newParams : Params)
    (rng : RNG) (hinv : ∀ p ∈ e.particles, p.isStuck = true → p.vx = 0 ∧ p.vy = 0) :
    ∀ q ∈ (updateParams M e newParams rng).1.particles,
      q.isStuck = true → q.vx = 0 ∧ q.vy = 0 := by
  intro q hq hstuck
  rcases updateParams_particles_mem M e newParams rng q hq with ⟨p, hp, rfl⟩
  have hpstuck : p.isStuck = true := by
    rw [← rescaleParticle_isStuck M newParams.moveSpeed p]
    exact hstuck
  rw [rescaleParticle_of_stuck _ _ _ hpstuck]
  rcases hp with hmem | hns
  · exact hinv p hmem hpstuck
  · rw [hns] at hpstuck
    exact absurd hpstuck (by norm_num)

/-- Reachability induction: every stuck particle of a reachable engine
state has zero velocity. -/
theorem reachable_stuck_inv (M : MathFns) (e : Engine) (hr : Reachable M e) :
    ∀ p ∈ e.particles, p.isStuck = true → p.vx = 0 ∧ p.vy = 0 := by
  induction hr with
  | init w h prm rng =>
    intro p hp hstuck
    have := initializeParticles_not_stuck M w h prm rng p hp
    rw [this] at hstuck
    exact absurd hstuck (by norm_num)
  | step e rng _ ih =>
    intro p hp hstuck
    refine foldl_preserve
      (fun st : List Particle × List ℚ × RNG =>
        ∀ p ∈ st.1, p.isStuck = true → p.vx = 0 ∧ p.vy = 0)
      (updateParticle M e.width e.height e.params e.particles) ?_
      (List.range e.particles.length) (e.particles, e.chemicalField, rng) ih p hp hstuck
    intro st i hst
    exact updateParticle_preserves_inv M e.width e.height e.params e.particles st i hst
  | reconcile e newParams rng _ ih =>
    exact updateParams_preserves_inv M e newParams rng ih
  | spawn e x y _ ih =>
    intro p hp hstuck
    rcases List.mem_append.mp hp with hold | hnew
    · exact ih p hold hstuck
    · rw [List.mem_singleton.mp hnew]
      exact ⟨rfl, rfl⟩
  | restart e rng _ ih =>
    intro p hp hstuck
    have := initializeParticles_not_stuck M e.width e.height e.params rng p hp
    rw [this] at hstuck
    exact absurd hstuck (by norm_num)
  | addFood e x y r s _ ih => exact ih
  | removeFood e x y r _ ih => exact ih
  | clearFood e _ ih => exact ih

/-- Claim C4: in every reachable engine state, a stuck particle has zero
velocity; one tick leaves a particle that is stuck at its start completely
untouched (position, velocity, heading, speed and flag — and since the
release check is unreachable, it stays stuck for any number of ticks and
any `releaseProbability`); and every stuck particle surviving a parameter
update is carried over unchanged from the previous particle list. -/
theorem stuck_invariant (M : MathFns) (e : Engine) (hr : Reachable M e) :
    (∀ p ∈ e.particles, p.isStuck = true → p.vx = 0 ∧ p.vy = 0) ∧
    (∀ (rng : RNG) (i : ℕ), (e.particles.getD i default).isStuck = true →
      (update M e rng).1.particles.getD i default = e.particles.getD i default) ∧
    (∀ (newParams : Params) (rng : RNG) (q : Particle),
      q ∈ (updateParams M e newParams rng).1.particles → q.isStuck = true →
      q ∈ e.particles) := by
  refine ⟨reachable_stuck_inv M e hr, ?_, ?_⟩
  · intro rng i hstuck
    exact fold_updateParticle_getD M e.width e.height e.params e.particles i
      (List.range e.particles.length) (e.particles, e.chemicalField, rng) hstuck
  · intro newParams rng q hq hstuck
    rcases updateParams_particles_mem M e newParams rng q hq with ⟨p, hp, rfl⟩
    have hpstuck : p.isStuck = true := by
      rw [← rescaleParticle_isStuck M newParams.moveSpeed p]
      exact hstuck
    rw [rescaleParticle_of_stuck _ _ _ hpstuck]
    rcases hp with hmem | hns
    · exact hmem
    · rw [hns] at hpstuck
      exact absurd hpstuck (by norm_num)

/-- Witness for `stuck_invariant`: the engine built by the constructor
with zero particles and one pinned particle spawned into it is reachable,
and its stuck particle has zero velocity. -/
theorem stuck_invariant_witness :
    (e4.particles.getD 0 default).vx = 0 ∧ (e4.particles.getD 0 default).vy = 0 :=
  (stuck_invariant M0 e4 (Reachable.spawn _ 1 1 (Reachable.init 2 2 prm0 rng0))).1
    (e4.particles.getD 0 default) (by simp [e4, spawnStickyParticle, mkEngine,
      initializeParticles, prm0, List.getD]) rfl

end FieldConditions
